import Mathlib

/-!
# calib: node identity, node hashing, barcode masking and flag parsing

A shallow embedding of `src/clustering/cluster.h`, `src/clustering/commandline.cc`
and `src/clustering/calib.cc`, followed by the theorems that settle the claims
about them.

Conventions of the embedding:

* `std::string` is `String`; `std::vector<minimizer_t>` is `List Nat`
  (`minimizer_t` is `uint32_t`); the C `int` globals are `Int`.
* `v[i]` on a `std::vector` with `i` outside the vector is undefined behaviour;
  it is modelled by `none`, and every function that indexes returns an `Option`.
* `size_t` is 64 bits wide: values are reduced modulo `2^64`. A shift of a
  `size_t` by 64 or more is undefined in C++; its result is a parameter of the
  model (`StdHash.wide_shift`).
* The process-wide configuration globals are an explicit `Config` value that is
  passed in and returned.
-/

namespace Calib

/-! ## cluster.h : Node, NodeHash, NodeEqual -/

/-- The `struct Node` of cluster.h: a barcode and the two minimizer vectors. -/
structure Node where
  barcode : String
  minimizers_1 : List Nat
  minimizers_2 : List Nat
  deriving DecidableEq, Repr

/-- The constructor `Node()`: an empty barcode and two vectors of
`minimizer_count` value-initialised (zero) entries. A negative count makes
`std::vector` throw, modelled as `none`. -/
def Node.default (minimizer_count : Int) : Option Node :=
  if 0 ≤ minimizer_count then
    some { barcode := ""
           minimizers_1 := List.replicate minimizer_count.toNat 0
           minimizers_2 := List.replicate minimizer_count.toNat 0 }
  else none

/-- What `NodeHash` takes from outside the source: the two library hash
functors `std::hash<std::string>` and `std::hash<int>`, taken as fixed but
otherwise arbitrary functions, and `wide_shift h i`, the value the compiled
program gives `h << i` for a shift count `i ≥ 64`, where the C++ shift on a
64-bit `size_t` is undefined. -/
structure StdHash where
  str : String → Nat
  int : Int → Nat
  wide_shift : Nat → Nat → Nat

/-- Truncation of a value to the 64-bit `size_t`. -/
def size_t (n : Nat) : Nat := n % 2 ^ 64

/-- The conversion of a `uint32_t` minimizer to the `int` argument of
`std::hash<int>` (two's complement, 32 bits). -/
def to_int (v : Nat) : Int :=
  if v % 2 ^ 32 < 2 ^ 31 then ((v % 2 ^ 32 : Nat) : Int) else ((v % 2 ^ 32 : Nat) : Int) - 2 ^ 32

/-- The shift `h << i` on `size_t`: multiplication by `2^i` modulo `2^64` for a
shift count below 64; from 64 on the shift is undefined in C++ and the result
is the one of the platform, `H.wide_shift`. -/
def shl (H : StdHash) (h : Nat) (i : Nat) : Nat :=
  if i < 64 then size_t (size_t h * 2 ^ i) else size_t (H.wide_shift (size_t h) i)

/-- One of the two loops of `NodeHash::operator()`:
`for (int i = 0; i < minimizer_count; i++) result ^= std::hash<int>()(v[i]) << i;` -/
def NodeHash.pass (H : StdHash) (minimizer_count : Int) (v : List Nat) (result : Nat) :
    Option Nat :=
  (List.range minimizer_count.toNat).foldlM
    (fun result i => do
      let x ← v[i]?
      pure (result ^^^ shl H (H.int (to_int x)) i))
    result

/-- The functor `NodeHash::operator()(const Node&)`. -/
def NodeHash (H : StdHash) (minimizer_count : Int) (node : Node) : Option Nat := do
  let result := size_t (H.str node.barcode)
  let result ← NodeHash.pass H minimizer_count node.minimizers_1 result
  let result ← NodeHash.pass H minimizer_count node.minimizers_2 result
  pure result

/-- One of the two loops of `NodeEqual::operator()`:
`for (int i = 0; i < minimizer_count; i++) result = result && (l[i] == r[i]);`
The right operand of `&&` is evaluated only when `result` is true. -/
def NodeEqual.pass (minimizer_count : Int) (l r : List Nat) (result : Bool) : Option Bool :=
  (List.range minimizer_count.toNat).foldlM
    (fun result i =>
      if result then do
        let x ← l[i]?
        let y ← r[i]?
        pure (x == y)
      else pure false)
    result

/-- The functor `NodeEqual::operator()(const Node&, const Node&)`. -/
def NodeEqual (minimizer_count : Int) (lhs rhs : Node) : Option Bool := do
  let result := decide (lhs.barcode = rhs.barcode)
  let result ← NodeEqual.pass minimizer_count lhs.minimizers_1 rhs.minimizers_1 result
  let result ← NodeEqual.pass minimizer_count lhs.minimizers_2 rhs.minimizers_2 result
  pure result

/-- A concrete pair of hash functors, the ones of libstdc++ in spirit: the
integer hash is the identity cast to `size_t`, the string hash sums the
characters; a shift count from 64 on is taken modulo 64, as the shift
instructions of x86-64 and AArch64 do. Used to evaluate `NodeHash` on concrete
nodes. -/
def sampleHash : StdHash where
  str := fun s => (s.data.map Char.toNat).sum
  int := fun z => (z % 2 ^ 64).toNat
  wide_shift := fun h i => h * 2 ^ (i % 64)

/-! ## cluster.h / spec §4.2, §4.5 : barcode masking -/

/-- Modelled from the spec: the body of `mask_barcode` (declared in cluster.h,
defined in cluster.cc, which is not among the sources). Spec §4.5: the result
is a string in which position `i` is `s[i]` if `mask[i]` is revealed (`true`),
else the sentinel. -/
def mask_barcode (sentinel : Char) (barcode : String) (mask : List Bool) : String :=
  String.mk (List.zipWith (fun c revealed => if revealed then c else sentinel) barcode.data mask)

/-- Modelled from the spec: the Hamming distance of two barcodes (spec §4.2,
the distance itself is computed nowhere in the sources), the number of
positions at which the two strings differ. -/
def HammingDistance (a b : String) : Nat :=
  (List.zipWith (fun x y => decide (x ≠ y)) a.data b.data).count true

/-- The number of revealed positions of a mask. -/
def revealed (mask : List Bool) : Nat := mask.count true

/-! ## commandline.cc : the configuration globals and parse_flags -/

/-- The parameter globals of commandline.cc, lines 10-20. -/
structure Config where
  input_1 : String
  input_2 : String
  output_prefix : String
  silent : Bool
  keep_qual : Bool
  barcode_length : Int
  minimizer_count : Int
  error_tolerance : Int
  minimizer_threshold : Int
  thread_count : Int
  kmer_size : Int
  deriving DecidableEq, Repr

/-- The initial values of the globals (commandline.cc, lines 10-20). -/
def Config.initial : Config where
  input_1 := ""
  input_2 := ""
  output_prefix := ""
  silent := false
  keep_qual := false
  barcode_length := -1
  minimizer_count := -1
  error_tolerance := -1
  minimizer_threshold := -1
  thread_count := 1
  kmer_size := -1

/-- How a call of `parse_flags` ends. -/
inductive Flags where
  /-- The function returned; the globals hold `cfg`. -/
  | returned (cfg : Config)
  /-- The function wrote `out` to stdout and called `exit(code)`. -/
  | exited (code : Int) (out : String)
  /-- The loop read `argv[argc]`, the null pointer that ends `argv`, and passed
  it to `std::string` or `atoi`: undefined behaviour. -/
  | null_read
  deriving DecidableEq, Repr

/-- The exit status the parent process observes for `exit(code)`: the low
eight bits of the code. -/
def exit_status (code : Int) : Int := code % 256

/-- The C library `isspace` in the "C" locale: space, `\t`, `\n`, `\v`, `\f`, `\r`. -/
def c_isspace (c : Char) : Bool :=
  c.toNat = 32 || (9 ≤ c.toNat && c.toNat ≤ 13)

/-- A model of the C library `atoi` for evaluating `parse_flags` on concrete
arguments, as glibc defines it, `(int) strtol(s, NULL, 10)`: leading white
space, an optional sign, then decimal digits, 0 when there is no digit; the
value is clamped to the 64-bit `long` and then truncated to the 32-bit `int`.
(A value outside `int` is undefined in the C standard.) -/
def c_atoi (s : String) : Int :=
  let digits (ds : List Char) : Int :=
    (ds.takeWhile Char.isDigit).foldl (fun acc c => 10 * acc + ((c.toNat - 48 : Nat) : Int)) 0
  let value : Int :=
    match s.data.dropWhile c_isspace with
    | '-' :: ds => - digits ds
    | '+' :: ds => digits ds
    | ds => digits ds
  let long : Int := max (-(2 ^ 63)) (min (2 ^ 63 - 1) value)
  (long + 2 ^ 31) % 2 ^ 32 - 2 ^ 31

/-- An `if` of the loop body that assigns from `argv[i+1]`:
`if (current_param == short || current_param == long) set(argv[i+1]);`
where `next` is `argv[i+1]`, absent when `i+1 = argc`. -/
def parse_flags.value (short long : String) (set : Config → String → Config)
    (current_param : String) (next : Option String) (cfg : Config) : Option Config :=
  if current_param = short ∨ current_param = long then next.map (set cfg) else some cfg

/-- An `if` of the loop body that sets a boolean:
`if (current_param == short || current_param == long) set();` -/
def parse_flags.switch (short long : String) (set : Config → Config)
    (current_param : String) (cfg : Config) : Option Config :=
  if current_param = short ∨ current_param = long then some (set cfg) else some cfg

/-- The body of the loop of `parse_flags` (lines 24-57) for one index `i`, with
`current_param = argv[i]` and `next = argv[i+1]`: the eleven `if`s in order. -/
def parse_flags.body (atoi : String → Int) (current_param : String) (next : Option String)
    (cfg : Config) : Option Config := do
  let cfg ← value "-f" "--input-forward" (fun c v => { c with input_1 := v }) current_param next cfg
  let cfg ← value "-r" "--input-reverse" (fun c v => { c with input_2 := v }) current_param next cfg
  let cfg ← value "-o" "--output-prefix" (fun c v => { c with output_prefix := v })
    current_param next cfg
  let cfg ← switch "-s" "--silent" (fun c => { c with silent := true }) current_param cfg
  let cfg ← switch "-q" "--keep-qual" (fun c => { c with keep_qual := true }) current_param cfg
  let cfg ← value "-l" "--barcode-length" (fun c v => { c with barcode_length := atoi v })
    current_param next cfg
  let cfg ← value "-m" "--minimizer-count" (fun c v => { c with minimizer_count := atoi v })
    current_param next cfg
  let cfg ← value "-k" "--kmer-size" (fun c v => { c with kmer_size := atoi v })
    current_param next cfg
  let cfg ← value "-e" "--error-tolerance" (fun c v => { c with error_tolerance := atoi v })
    current_param next cfg
  let cfg ← value "-t" "--minimizer-threshold"
    (fun c v => { c with minimizer_threshold := atoi v }) current_param next cfg
  let cfg ← value "-c" "--threads" (fun c v => { c with thread_count := atoi v })
    current_param next cfg
  pure cfg

/-- The first `n` iterations of the loop `for (int i = 0; i < argc; i++)` of
`parse_flags`, from the globals `cfg`; `none` when an iteration reads
`argv[argc]`. -/
def parse_flags.loop (atoi : String → Int) (argv : List String) (n : Nat) (cfg : Config) :
    Option Config :=
  (List.range n).foldlM
    (fun cfg i => do
      let current_param ← argv[i]?
      body atoi current_param argv[i + 1]? cfg)
    cfg

/-- The checks of `parse_flags` after the loop (lines 60-75). -/
def parse_flags.check (cfg : Config) : Flags :=
  if cfg.barcode_length < 0 ∨ cfg.minimizer_count < 0 ∨ cfg.error_tolerance < 0 ∨
      cfg.minimizer_threshold < 0 ∨ cfg.kmer_size < 0 then
    .exited (-1) "Missing parameters!\n"
  else if cfg.input_1 = "" ∨ cfg.input_2 = "" ∨ cfg.output_prefix = "" then
    .exited (-1) "Missing parameters!\n"
  else if cfg.thread_count < 1 ∨ cfg.thread_count > 8 then
    .exited (-1) "Thread count must be between 1 and 8!\n"
  else if cfg.minimizer_threshold > cfg.minimizer_count ∨ cfg.minimizer_threshold < 1 then
    .exited (-1) "Minimizer threshold must be <= minimizer count and >= 1\n"
  else .returned cfg

/-- The function `parse_flags(argc, argv)` with `argc = argv.length`, run on
the globals `cfg`. -/
def parse_flags (atoi : String → Int) (cfg : Config) (argv : List String) : Flags :=
  match parse_flags.loop atoi argv argv.length cfg with
  | none => .null_read
  | some cfg => parse_flags.check cfg

/-! ## calib.cc : main -/

/-- What `main` does that can be observed: text written to stdout, the two log
streams opened, and the calls of `print_flags`, `extract_barcodes_and_minimizers`
and `cluster` (whose bodies are outside this model). -/
inductive Event where
  | cout (text : String)
  | open_dog (path : String)
  | open_node_dog (path : String)
  | print_flags (cfg : Config)
  | extract_barcodes_and_minimizers
  | cluster
  deriving DecidableEq, Repr

/-- A run of `main`: the events in order and the exit code. -/
structure Run where
  events : List Event
  code : Int
  deriving DecidableEq, Repr

/-- The part of `main` after `parse_flags` has returned (calib.cc, lines 21-37). -/
def main.work (cfg : Config) : List Event :=
  [.open_dog (cfg.output_prefix ++ "cluster.log"),
   .open_node_dog (cfg.output_prefix ++ "cluster.node.log"),
   .print_flags cfg] ++
  (if !cfg.silent then [.cout "Extracting minimizers and barcodes...\n"] else []) ++
  [.extract_barcodes_and_minimizers] ++
  (if !cfg.silent then [.cout "Clustering...\n"] else []) ++
  [.cluster] ++
  (if !cfg.silent then [.cout "All done! Have a good day!\n"] else [])

/-- The function `main(argc, argv)`, started with the globals at their initial
values; `none` when `parse_flags` runs into undefined behaviour. `exit` inside
`parse_flags` ends the process there. -/
def main (atoi : String → Int) (argv : List String) : Option Run :=
  match parse_flags atoi Config.initial argv with
  | .null_read => none
  | .exited code out => some { events := [.cout out], code := code }
  | .returned cfg => some { events := main.work cfg, code := 0 }

/-- The text `main` itself writes to stdout during a run, piece by piece. -/
def Run.stdout (r : Run) : List String :=
  r.events.filterMap (fun e => match e with | .cout t => some t | _ => none)

/-- A complete, valid command line. -/
def sampleArgv : List String :=
  ["calib", "-f", "r1.fq", "-r", "r2.fq", "-o", "out.", "-l", "4", "-m", "2", "-k", "3",
   "-e", "1", "-t", "2"]

/-- A sample node with `M = 2` minimizers per mate. -/
def sampleNode : Node := { barcode := "AAAA", minimizers_1 := [1, 2], minimizers_2 := [3, 4] }

/-- A node that differs from `sampleNode` in one minimizer of mate 1. -/
def otherNode : Node := { barcode := "AAAA", minimizers_1 := [1, 9], minimizers_2 := [3, 4] }

/-- The mask that hides every position at which `a` and `b` differ and, from
the left, `extra` further positions at which they agree (`true` = revealed). -/
def coverMask : List Char → List Char → Nat → List Bool
  | x :: a, y :: b, extra =>
    if x ≠ y then false :: coverMask a b extra
    else
      match extra with
      | 0 => true :: coverMask a b 0
      | e + 1 => false :: coverMask a b e
  | _, _, _ => []

/-- The spellings of the options whose `if` reads `argv[i+1]`. -/
def valueOptions : List String :=
  ["-f", "--input-forward", "-r", "--input-reverse", "-o", "--output-prefix",
   "-l", "--barcode-length", "-m", "--minimizer-count", "-k", "--kmer-size",
   "-e", "--error-tolerance", "-t", "--minimizer-threshold", "-c", "--threads"]

/-- The globals after one loop iteration in closed form, field by field, when
the current argument is `current_param` and the following one is `v`. -/
def parse_flags.effect (atoi : String → Int) (current_param v : String) (cfg : Config) : Config where
  input_1 :=
    if current_param = "-f" ∨ current_param = "--input-forward" then v else cfg.input_1
  input_2 :=
    if current_param = "-r" ∨ current_param = "--input-reverse" then v else cfg.input_2
  output_prefix :=
    if current_param = "-o" ∨ current_param = "--output-prefix" then v else cfg.output_prefix
  silent := if current_param = "-s" ∨ current_param = "--silent" then true else cfg.silent
  keep_qual := if current_param = "-q" ∨ current_param = "--keep-qual" then true else cfg.keep_qual
  barcode_length :=
    if current_param = "-l" ∨ current_param = "--barcode-length" then atoi v
    else cfg.barcode_length
  minimizer_count :=
    if current_param = "-m" ∨ current_param = "--minimizer-count" then atoi v
    else cfg.minimizer_count
  error_tolerance :=
    if current_param = "-e" ∨ current_param = "--error-tolerance" then atoi v
    else cfg.error_tolerance
  minimizer_threshold :=
    if current_param = "-t" ∨ current_param = "--minimizer-threshold" then atoi v
    else cfg.minimizer_threshold
  thread_count :=
    if current_param = "-c" ∨ current_param = "--threads" then atoi v else cfg.thread_count
  kmer_size :=
    if current_param = "-k" ∨ current_param = "--kmer-size" then atoi v else cfg.kmer_size

/-- The two spellings of each of the eight required options. -/
def requiredOptions : List (String × String) :=
  [("-f", "--input-forward"), ("-r", "--input-reverse"), ("-o", "--output-prefix"),
   ("-l", "--barcode-length"), ("-m", "--minimizer-count"), ("-k", "--kmer-size"),
   ("-e", "--error-tolerance"), ("-t", "--minimizer-threshold")]

/-- The globals `parse_flags` leaves for `sampleArgv`. -/
def sampleConfig : Config :=
  { input_1 := "r1.fq", input_2 := "r2.fq", output_prefix := "out.", silent := false,
    keep_qual := false, barcode_length := 4, minimizer_count := 2, error_tolerance := 1,
    minimizer_threshold := 2, thread_count := 1, kmer_size := 3 }

/-- A command line like `sampleArgv` with other values for `-l`, `-e`, `-t`
and `-c`. -/
def argvWith (l e t c : String) : List String :=
  ["calib", "-f", "r1.fq", "-r", "r2.fq", "-o", "out.", "-l", l, "-m", "2", "-k", "3",
   "-e", e, "-t", t, "-c", c]

/-- The globals the loop of `parse_flags` leaves for `argvWith l e t c`. -/
def configWith (l e t c : Int) : Config :=
  { input_1 := "r1.fq", input_2 := "r2.fq", output_prefix := "out.", silent := false,
    keep_qual := false, barcode_length := l, minimizer_count := 2, error_tolerance := e,
    minimizer_threshold := t, thread_count := c, kmer_size := 3 }

/-- What one loop of `NodeHash` XORs into `result` over the first `n`
positions of `v`: the XOR of the element hashes, each shifted by its position. -/
def NodeHash.contribution (H : StdHash) (v : List Nat) : Nat → Nat
  | 0 => 0
  | n + 1 => NodeHash.contribution H v n ^^^ shl H (H.int (to_int (v.getD n 0))) n

/-- A node whose two mates have the same minimizers. -/
def twinNode : Node := { barcode := "AAAA", minimizers_1 := [5, 6], minimizers_2 := [5, 6] }

/-- The statement "last occurrence wins" for one configuration value `x`,
assigned by the option spelled `short` or `long` through `rd` and initially
`init`: `x` is `init` when the option occurs nowhere in `argv`, and otherwise
is read from the argument after the last element of `argv` equal to either
spelling. -/
def LastWins {α : Type} (argv : List String) (short long : String) (rd : String → α)
    (init x : α) : Prop :=
  ((short ∉ argv ∧ long ∉ argv) → x = init) ∧
  (∀ i, i < argv.length → (argv[i]? = some short ∨ argv[i]? = some long) →
    (∀ j, i < j → argv[j]? ≠ some short ∧ argv[j]? ≠ some long) →
    ∃ v, argv[i + 1]? = some v ∧ x = rd v)

/-- A command line that repeats `-l`. -/
def argvRepeat : List String := ["calib", "-l", "4", "-l", "6"]

/-- The loop of `NodeEqual` over the first `n` positions of two vectors that
have at least `n` entries: it returns, and the result is the old result and
the equality of the two prefixes. -/
theorem NodeEqual.fold_take (l r : List Nat) :
    ∀ n : Nat, n ≤ l.length → n ≤ r.length → ∀ result : Bool,
      (List.range n).foldlM
        (fun result i =>
          if result then do
            let x ← l[i]?
            let y ← r[i]?
            pure (x == y)
          else pure false)
        result = some (result && decide (l.take n = r.take n)) := by
  intro n
  induction n with
  | zero => intro _ _ result; simp
  | succ n ih =>
    intro hl hr result
    have hl1 : n < l.length := hl
    have hr1 : n < r.length := hr
    rw [List.range_succ, List.foldlM_append, ih (Nat.le_of_lt hl1) (Nat.le_of_lt hr1)]
    have e1 : l[n]? = some l[n] := List.getElem?_eq_getElem hl1
    have e2 : r[n]? = some r[n] := List.getElem?_eq_getElem hr1
    have t1 : l.take (n + 1) = l.take n ++ [l[n]] := by
      rw [List.take_succ, e1]; rfl
    have t2 : r.take (n + 1) = r.take n ++ [r[n]] := by
      rw [List.take_succ, e2]; rfl
    have hlen : (l.take n).length = (r.take n).length := by
      rw [List.length_take, List.length_take]; omega
    have happ : (l.take (n + 1) = r.take (n + 1)) ↔ (l.take n = r.take n ∧ l[n] = r[n]) := by
      rw [t1, t2]
      constructor
      · intro h
        have := List.append_inj h hlen
        exact ⟨this.1, by simpa using this.2⟩
      · rintro ⟨h1, h2⟩; rw [h1, h2]
    cases result
    · simp
    · by_cases hp : l.take n = r.take n
      · simp [hp, e1, e2, happ, beq_eq_decide]
      · simp [hp, happ]

/-- On vectors of exactly `M` entries the loop of `NodeEqual` compares the
whole vectors. -/
theorem NodeEqual.pass_exact (M : Int) (l r : List Nat) (hl : (l.length : Int) = M)
    (hr : (r.length : Int) = M) (result : Bool) :
    NodeEqual.pass M l r result = some (result && decide (l = r)) := by
  have hl1 : M.toNat = l.length := by omega
  have hr1 : M.toNat = r.length := by omega
  unfold NodeEqual.pass
  rw [NodeEqual.fold_take l r M.toNat (by omega) (by omega)]
  have tl : l.take M.toNat = l := by rw [hl1]; exact List.take_length l
  have tr : r.take M.toNat = r := by rw [hr1]; exact List.take_length r
  rw [tl, tr]

/-- The loop of `NodeHash` over the first `n` positions reads only the prefix
of length `n`: two vectors with the same prefix give the same result. -/
theorem NodeHash.fold_congr (H : StdHash) (l r : List Nat) :
    ∀ n : Nat, l.take n = r.take n → ∀ result : Nat,
      (List.range n).foldlM
        (fun result i => do
          let x ← l[i]?
          pure (result ^^^ shl H (H.int (to_int x)) i))
        result =
      (List.range n).foldlM
        (fun result i => do
          let x ← r[i]?
          pure (result ^^^ shl H (H.int (to_int x)) i))
        result := by
  intro n
  induction n with
  | zero => intro _ result; simp
  | succ n ih =>
    intro h result
    have hn : l.take n = r.take n := by
      have := congrArg (List.take n) h
      simpa [List.take_take] using this
    have hi : l[n]? = r[n]? := by
      have := congrArg (fun t => t[n]?) h
      simpa [List.getElem?_take] using this
    rw [List.range_succ, List.foldlM_append, List.foldlM_append, ih hn]
    simp [hi]

/-- The loop of `NodeHash` over the first `n` positions of a vector with at
least `n` entries returns a value. -/
theorem NodeHash.fold_defined (H : StdHash) (v : List Nat) :
    ∀ n : Nat, n ≤ v.length → ∀ result : Nat, ∃ h,
      (List.range n).foldlM
        (fun result i => do
          let x ← v[i]?
          pure (result ^^^ shl H (H.int (to_int x)) i))
        result = some h := by
  intro n
  induction n with
  | zero => intro _ result; exact ⟨result, by simp⟩
  | succ n ih =>
    intro hv result
    have hv1 : n < v.length := hv
    obtain ⟨h, hh⟩ := ih (Nat.le_of_lt hv1) result
    rw [List.range_succ, List.foldlM_append, hh]
    simp [List.getElem?_eq_getElem hv1]

/-- C1. For nodes whose two minimizer vectors have exactly `minimizer_count = M`
entries, `NodeEqual` returns, and it returns true if and only if the barcodes
are equal and both minimizer vectors are equal position by position. -/
theorem NodeEqual_iff_attributes_equal (M : Int) (a b : Node)
    (ha1 : (a.minimizers_1.length : Int) = M) (ha2 : (a.minimizers_2.length : Int) = M)
    (hb1 : (b.minimizers_1.length : Int) = M) (hb2 : (b.minimizers_2.length : Int) = M) :
    (∃ result, NodeEqual M a b = some result) ∧
    (NodeEqual M a b = some true ↔
      (a.barcode = b.barcode ∧ a.minimizers_1 = b.minimizers_1 ∧
        a.minimizers_2 = b.minimizers_2)) := by
  have key : NodeEqual M a b = some ((decide (a.barcode = b.barcode) &&
      decide (a.minimizers_1 = b.minimizers_1)) &&
      decide (a.minimizers_2 = b.minimizers_2)) := by
    unfold NodeEqual
    simp only [NodeEqual.pass_exact M _ _ ha1 hb1, NodeEqual.pass_exact M _ _ ha2 hb2]
    rfl
  refine ⟨⟨_, key⟩, ?_⟩
  rw [key]
  simp [and_assoc]

/-- C1, at a concrete input: `sampleNode` equals itself, with `M = 2`. -/
theorem NodeEqual_iff_attributes_equal_witness :
    ((sampleNode.minimizers_1.length : Int) = 2 ∧ (sampleNode.minimizers_2.length : Int) = 2) ∧
    ((∃ result, NodeEqual 2 sampleNode sampleNode = some result) ∧
     (NodeEqual 2 sampleNode sampleNode = some true ↔
      (sampleNode.barcode = sampleNode.barcode ∧
        sampleNode.minimizers_1 = sampleNode.minimizers_1 ∧
        sampleNode.minimizers_2 = sampleNode.minimizers_2))) :=
  ⟨⟨by decide, by decide⟩,
   NodeEqual_iff_attributes_equal 2 sampleNode sampleNode (by decide) (by decide) (by decide)
     (by decide)⟩

/-- C2. `NodeHash` is compatible with `NodeEqual`: for nodes whose minimizer
vectors have at least `M` entries, if `NodeEqual` returns true then `NodeHash`
returns on both nodes and returns the same value. -/
theorem NodeHash_eq_of_NodeEqual (H : StdHash) (M : Int) (a b : Node)
    (ha1 : M ≤ (a.minimizers_1.length : Int)) (ha2 : M ≤ (a.minimizers_2.length : Int))
    (hb1 : M ≤ (b.minimizers_1.length : Int)) (hb2 : M ≤ (b.minimizers_2.length : Int))
    (heq : NodeEqual M a b = some true) :
    ∃ h, NodeHash H M a = some h ∧ NodeHash H M b = some h := by
  have la1 : M.toNat ≤ a.minimizers_1.length := by omega
  have la2 : M.toNat ≤ a.minimizers_2.length := by omega
  have lb1 : M.toNat ≤ b.minimizers_1.length := by omega
  have lb2 : M.toNat ≤ b.minimizers_2.length := by omega
  have key : NodeEqual M a b = some ((decide (a.barcode = b.barcode) &&
      decide (a.minimizers_1.take M.toNat = b.minimizers_1.take M.toNat)) &&
      decide (a.minimizers_2.take M.toNat = b.minimizers_2.take M.toNat)) := by
    unfold NodeEqual NodeEqual.pass
    simp only [NodeEqual.fold_take _ _ _ la1 lb1, NodeEqual.fold_take _ _ _ la2 lb2]
    rfl
  rw [key] at heq
  simp only [Option.some.injEq, Bool.and_eq_true, decide_eq_true_eq] at heq
  obtain ⟨⟨hbar, h1⟩, h2⟩ := heq
  have hx : ∃ x, NodeHash.pass H M a.minimizers_1 (size_t (H.str a.barcode)) = some x :=
    NodeHash.fold_defined H a.minimizers_1 M.toNat la1 _
  obtain ⟨x, hx⟩ := hx
  have hy : ∃ y, NodeHash.pass H M a.minimizers_2 x = some y :=
    NodeHash.fold_defined H a.minimizers_2 M.toNat la2 _
  obtain ⟨y, hy⟩ := hy
  have c1 : NodeHash.pass H M b.minimizers_1 (size_t (H.str a.barcode)) =
      NodeHash.pass H M a.minimizers_1 (size_t (H.str a.barcode)) :=
    (NodeHash.fold_congr H _ _ _ h1 _).symm
  have c2 : NodeHash.pass H M b.minimizers_2 x = NodeHash.pass H M a.minimizers_2 x :=
    (NodeHash.fold_congr H _ _ _ h2 _).symm
  refine ⟨y, ?_, ?_⟩
  · show (NodeHash.pass H M a.minimizers_1 (size_t (H.str a.barcode))).bind
      (fun r => (NodeHash.pass H M a.minimizers_2 r).bind (fun r => some r)) = some y
    rw [hx, Option.some_bind, hy, Option.some_bind]
  · show (NodeHash.pass H M b.minimizers_1 (size_t (H.str b.barcode))).bind
      (fun r => (NodeHash.pass H M b.minimizers_2 r).bind (fun r => some r)) = some y
    rw [← hbar, c1, hx, Option.some_bind, c2, hy, Option.some_bind]

/-- C2, at a concrete input: `sampleNode` against itself with `M = 2`. -/
theorem NodeHash_eq_of_NodeEqual_witness :
    NodeEqual 2 sampleNode sampleNode = some true ∧
    ∃ h, NodeHash sampleHash 2 sampleNode = some h ∧ NodeHash sampleHash 2 sampleNode = some h :=
  ⟨by decide,
   NodeHash_eq_of_NodeEqual sampleHash 2 sampleNode sampleNode (by decide) (by decide)
     (by decide) (by decide) (by decide)⟩

/-! ## Theorems: mask completeness -/

/-- The covering mask is as long as the barcodes. -/
theorem coverMask_length : ∀ (a b : List Char) (extra : Nat), a.length = b.length →
    (coverMask a b extra).length = a.length
  | [], [], _, _ => by simp [coverMask]
  | [], _ :: _, _, h => by simp at h
  | _ :: _, [], _, h => by simp at h
  | x :: a, y :: b, extra, h => by
    have h1 : a.length = b.length := by simpa using h
    by_cases hxy : x = y
    · cases extra with
      | zero => simp [coverMask, hxy, coverMask_length a b 0 h1]
      | succ e => simp [coverMask, hxy, coverMask_length a b e h1]
    · simp [coverMask, hxy, coverMask_length a b extra h1]

/-- Under the covering mask the two barcodes are masked to the same string. -/
theorem coverMask_agree (sentinel : Char) : ∀ (a b : List Char) (extra : Nat),
    List.zipWith (fun c revealed => if revealed then c else sentinel) a (coverMask a b extra) =
    List.zipWith (fun c revealed => if revealed then c else sentinel) b (coverMask a b extra)
  | [], [], _ => by simp [coverMask]
  | [], _ :: _, _ => by simp [coverMask]
  | _ :: _, [], _ => by simp [coverMask]
  | x :: a, y :: b, extra => by
    by_cases hxy : x = y
    · cases extra with
      | zero => simp [coverMask, hxy, coverMask_agree sentinel a b 0]
      | succ e => simp [coverMask, hxy, coverMask_agree sentinel a b e]
    · simp [coverMask, hxy, coverMask_agree sentinel a b extra]

/-- The covering mask hides the differing positions and `extra` more, as far
as there are agreeing positions left. -/
theorem coverMask_hidden : ∀ (a b : List Char) (extra : Nat), a.length = b.length →
    (coverMask a b extra).count false =
      (List.zipWith (fun x y => decide (x ≠ y)) a b).count true +
        min extra (a.length - (List.zipWith (fun x y => decide (x ≠ y)) a b).count true)
  | [], [], _, _ => by simp [coverMask]
  | [], _ :: _, _, h => by simp at h
  | _ :: _, [], _, h => by simp at h
  | x :: a, y :: b, extra, h => by
    have h1 : a.length = b.length := by simpa using h
    have hle : (List.zipWith (fun x y => decide (x ≠ y)) a b).count true ≤ a.length := by
      have := List.count_le_length true (List.zipWith (fun x y => decide (x ≠ y)) a b)
      simpa [List.length_zipWith, h1] using this
    have hc : (coverMask (x :: a) (y :: b) extra) =
        if x ≠ y then false :: coverMask a b extra
        else
          match extra with
          | 0 => true :: coverMask a b 0
          | e + 1 => false :: coverMask a b e := by
      simp only [coverMask]
    have hz : (List.zipWith (fun x y => decide (x ≠ y)) (x :: a) (y :: b)).count true =
        (if x ≠ y then 1 else 0) +
          (List.zipWith (fun x y => decide (x ≠ y)) a b).count true := by
      rw [List.zipWith_cons_cons]
      by_cases hxy : x = y
      · rw [List.count_cons_of_ne (by simp [hxy])]; simp [hxy]
      · have : decide (x ≠ y) = true := by simp [hxy]
        rw [this, List.count_cons_self]; simp [hxy]; omega
    have ih := fun e => coverMask_hidden a b e h1
    rw [hc, hz, List.length_cons]
    generalize (List.zipWith (fun x y => decide (x ≠ y)) a b).count true = d at hle ih ⊢
    by_cases hxy : x = y
    · cases extra with
      | zero =>
        simp only [hxy, ne_eq, not_true_eq_false, if_false]
        rw [List.count_cons_of_ne (by decide), ih 0]
        omega
      | succ e =>
        simp only [hxy, ne_eq, not_true_eq_false, if_false]
        rw [List.count_cons_self, ih e]
        omega
    · simp only [hxy, ne_eq, not_false_eq_true, if_true]
      rw [List.count_cons_self, ih extra]
      omega

/-- In a list of booleans the `true` and the `false` entries add up to the length. -/
theorem count_true_add_count_false (m : List Bool) :
    m.count true + m.count false = m.length := by
  induction m with
  | nil => simp
  | cons x m ih => cases x <;> simp <;> omega

/-- C3. Mask completeness: for `0 ≤ E ≤ L` and barcodes `a`, `b` of length `L`
at Hamming distance at most `E`, some mask of length `L` with exactly `L - E`
revealed positions masks both barcodes to the same string (of length `L`), so
both fall into the same bucket under that mask. -/
theorem mask_completeness (sentinel : Char) (L E : Nat) (a b : String) (hE : E ≤ L)
    (ha : a.length = L) (hb : b.length = L) (hd : HammingDistance a b ≤ E) :
    ∃ mask : List Bool, mask.length = L ∧ revealed mask = L - E ∧
      mask_barcode sentinel a mask = mask_barcode sentinel b mask ∧
      (mask_barcode sentinel a mask).length = L := by
  have hla : a.data.length = L := ha
  have hlb : b.data.length = L := hb
  have hab : a.data.length = b.data.length := by rw [hla, hlb]
  have hlen := coverMask_length a.data b.data (E - HammingDistance a b) hab
  have hhid : (coverMask a.data b.data (E - HammingDistance a b)).count false =
      HammingDistance a b + min (E - HammingDistance a b) (a.data.length - HammingDistance a b) :=
    coverMask_hidden a.data b.data (E - HammingDistance a b) hab
  have hsum := count_true_add_count_false (coverMask a.data b.data (E - HammingDistance a b))
  have hagree := coverMask_agree sentinel a.data b.data (E - HammingDistance a b)
  refine ⟨coverMask a.data b.data (E - HammingDistance a b), ?_, ?_, ?_, ?_⟩
  · rw [hlen, hla]
  · unfold revealed
    rw [hlen, hla] at hsum
    rw [hla] at hhid
    omega
  · unfold mask_barcode
    rw [hagree]
  · unfold mask_barcode
    show (List.zipWith _ a.data _).length = L
    rw [List.length_zipWith, hlen, hla, Nat.min_self]

/-- C3, at a concrete input: `AAAA` and `AAAT` with `L = 4`, `E = 1`. -/
theorem mask_completeness_witness :
    (1 ≤ 4 ∧ "AAAA".length = 4 ∧ "AAAT".length = 4 ∧ HammingDistance "AAAA" "AAAT" ≤ 1) ∧
    ∃ mask : List Bool, mask.length = 4 ∧ revealed mask = 4 - 1 ∧
      mask_barcode '#' "AAAA" mask = mask_barcode '#' "AAAT" mask ∧
      (mask_barcode '#' "AAAA" mask).length = 4 :=
  ⟨⟨by decide, by decide, by decide, by decide⟩,
   mask_completeness '#' 4 1 "AAAA" "AAAT" (by decide) (by decide) (by decide) (by decide)⟩

/-! ## Theorems: parse_flags -/

/-- One `if` that reads `argv[i+1]`, when `argv[i+1]` exists. -/
theorem parse_flags.value_some (short long : String) (set : Config → String → Config)
    (cur v : String) (cfg : Config) :
    parse_flags.value short long set cur (some v) cfg =
      some (if cur = short ∨ cur = long then set cfg v else cfg) := by
  unfold parse_flags.value
  split <;> rfl

/-- One `if` that sets a boolean. -/
theorem parse_flags.switch_some (short long : String) (set : Config → Config)
    (cur : String) (cfg : Config) :
    parse_flags.switch short long set cur cfg =
      some (if cur = short ∨ cur = long then set cfg else cfg) := by
  unfold parse_flags.switch
  split <;> rfl

/-- Two configurations with the same eleven fields are equal. -/
theorem Config.eq_of_fields (c d : Config) (h1 : c.input_1 = d.input_1)
    (h2 : c.input_2 = d.input_2) (h3 : Config.output_prefix c = Config.output_prefix d)
    (h4 : c.silent = d.silent) (h5 : c.keep_qual = d.keep_qual)
    (h6 : c.barcode_length = d.barcode_length) (h7 : c.minimizer_count = d.minimizer_count)
    (h8 : c.error_tolerance = d.error_tolerance)
    (h9 : c.minimizer_threshold = d.minimizer_threshold)
    (h10 : c.thread_count = d.thread_count) (h11 : c.kmer_size = d.kmer_size) : c = d := by
  cases c; cases d; simp_all

/-- The loop body when `argv[i+1]` exists: it returns the closed form. -/
theorem parse_flags.body_some (atoi : String → Int) (cur v : String) (cfg : Config) :
    parse_flags.body atoi cur (some v) cfg = some (parse_flags.effect atoi cur v cfg) := by
  unfold parse_flags.body
  simp only [parse_flags.value_some, parse_flags.switch_some, Option.bind_eq_bind,
    Option.some_bind, Option.pure_def, Option.some.injEq]
  apply Config.eq_of_fields <;>
    simp only [parse_flags.effect, apply_ite Config.input_1, apply_ite Config.input_2,
      apply_ite Config.output_prefix, apply_ite Config.silent, apply_ite Config.keep_qual,
      apply_ite Config.barcode_length, apply_ite Config.minimizer_count,
      apply_ite Config.error_tolerance, apply_ite Config.minimizer_threshold,
      apply_ite Config.thread_count, apply_ite Config.kmer_size, ite_self]

/-- One `if` that reads `argv[i+1]` is skipped when the current argument is
neither spelling of its option. -/
theorem parse_flags.value_skip (short long : String) (set : Config → String → Config)
    (cur : String) (next : Option String) (cfg : Config) (h1 : cur ≠ short) (h2 : cur ≠ long) :
    parse_flags.value short long set cur next cfg = some cfg := by
  unfold parse_flags.value
  rw [if_neg (by simp [h1, h2])]

/-- The loop body does not depend on `argv[i+1]` when the current argument is
not an option that takes a value. -/
theorem parse_flags.body_of_not_mem (atoi : String → Int) (cur : String) (next : Option String)
    (cfg : Config) (h : cur ∉ valueOptions) :
    parse_flags.body atoi cur next cfg = some (parse_flags.effect atoi cur "" cfg) := by
  rw [← parse_flags.body_some]
  simp only [valueOptions, List.mem_cons, List.mem_singleton, List.not_mem_nil, or_false,
    not_or] at h
  obtain ⟨f1, f2, r1, r2, o1, o2, l1, l2, m1, m2, k1, k2, e1, e2, t1, t2, c1, c2⟩ := h
  unfold parse_flags.body
  simp only [parse_flags.value_skip _ _ _ cur _ _ f1 f2, parse_flags.value_skip _ _ _ cur _ _ r1 r2,
    parse_flags.value_skip _ _ _ cur _ _ o1 o2, parse_flags.value_skip _ _ _ cur _ _ l1 l2,
    parse_flags.value_skip _ _ _ cur _ _ m1 m2, parse_flags.value_skip _ _ _ cur _ _ k1 k2,
    parse_flags.value_skip _ _ _ cur _ _ e1 e2, parse_flags.value_skip _ _ _ cur _ _ t1 t2,
    parse_flags.value_skip _ _ _ cur _ _ c1 c2]

/-- The loop body reads `argv[argc]` when the last argument is an option that
takes a value. -/
theorem parse_flags.body_null (atoi : String → Int) (cur : String) (cfg : Config)
    (h : cur ∈ valueOptions) : parse_flags.body atoi cur none cfg = none := by
  simp only [valueOptions, List.mem_cons, List.mem_singleton, List.not_mem_nil, or_false] at h
  rcases h with h | h | h | h | h | h | h | h | h | h | h | h | h | h | h | h | h | h <;>
    subst h <;> simp [parse_flags.body, parse_flags.value, parse_flags.switch]

/-- Whenever the loop body returns, the globals are the closed form, and an
option that takes a value was followed by an argument. -/
theorem parse_flags.body_eq_some (atoi : String → Int) (cur : String) (next : Option String)
    (cfg cfg' : Config) (h : parse_flags.body atoi cur next cfg = some cfg') :
    cfg' = parse_flags.effect atoi cur (next.getD "") cfg ∧
      (cur ∈ valueOptions → ∃ v, next = some v) := by
  cases next with
  | some v =>
    rw [parse_flags.body_some] at h
    exact ⟨(Option.some.inj h).symm, fun _ => ⟨v, rfl⟩⟩
  | none =>
    by_cases hm : cur ∈ valueOptions
    · rw [parse_flags.body_null atoi cur cfg hm] at h
      exact absurd h (by simp)
    · rw [parse_flags.body_of_not_mem atoi cur none cfg hm] at h
      exact ⟨(Option.some.inj h).symm, fun hc => absurd hc hm⟩

/-- The loop, one iteration unrolled at the end. -/
theorem parse_flags.loop_succ (atoi : String → Int) (argv : List String) (n : Nat)
    (cfg : Config) :
    parse_flags.loop atoi argv (n + 1) cfg =
      (parse_flags.loop atoi argv n cfg).bind
        (fun c => argv[n]?.bind (fun cur => parse_flags.body atoi cur argv[n + 1]? c)) := by
  unfold parse_flags.loop
  rw [List.range_succ, List.foldlM_append]
  simp only [List.foldlM_cons, List.foldlM_nil, Option.bind_eq_bind, Option.pure_def,
    Option.bind_some]

/-- The loop, one iteration unrolled at the end, when it returns. -/
theorem parse_flags.loop_succ_some (atoi : String → Int) (argv : List String) (n : Nat)
    (cfg cfg' : Config) (h : parse_flags.loop atoi argv (n + 1) cfg = some cfg') :
    ∃ c cur, parse_flags.loop atoi argv n cfg = some c ∧ argv[n]? = some cur ∧
      parse_flags.body atoi cur argv[n + 1]? c = some cfg' := by
  rw [parse_flags.loop_succ] at h
  obtain ⟨c, hc, h⟩ := Option.bind_eq_some.mp h
  obtain ⟨cur, hcur, h⟩ := Option.bind_eq_some.mp h
  exact ⟨c, cur, hc, hcur, h⟩

/-- Last occurrence wins, for one global `g` assigned by the option spelled
`s` or `l`: after `n` iterations `g` is unchanged when the option does not
occur among the first `n` arguments, and otherwise is read from the argument
after its last occurrence. -/
theorem parse_flags.loop_field {α : Type} (atoi : String → Int) (g : Config → α)
    (s l : String) (rd : String → α)
    (hg : ∀ cur v c, g (parse_flags.effect atoi cur v c) = if cur = s ∨ cur = l then rd v else g c)
    (argv : List String) :
    ∀ (n : Nat) (cfg cfg' : Config), parse_flags.loop atoi argv n cfg = some cfg' →
      ((∀ i, i < n → argv[i]? ≠ some s ∧ argv[i]? ≠ some l) → g cfg' = g cfg) ∧
      (∀ i, i < n → (argv[i]? = some s ∨ argv[i]? = some l) →
        (∀ j, i < j → j < n → argv[j]? ≠ some s ∧ argv[j]? ≠ some l) →
        g cfg' = rd (argv[i + 1]?.getD "")) := by
  intro n
  induction n with
  | zero =>
    intro cfg cfg' h
    have : cfg' = cfg := by
      simpa [parse_flags.loop] using h.symm
    subst this
    exact ⟨fun _ => rfl, fun i hi => absurd hi (Nat.not_lt_zero i)⟩
  | succ n ih =>
    intro cfg cfg' h
    obtain ⟨c, cur, hc, hcur, hb⟩ := parse_flags.loop_succ_some atoi argv n cfg cfg' h
    obtain ⟨ha, hb'⟩ := ih cfg c hc
    have he := (parse_flags.body_eq_some atoi cur _ c cfg' hb).1
    have hval : g cfg' = if cur = s ∨ cur = l then rd (argv[n + 1]?.getD "") else g c := by
      rw [he, hg]
    constructor
    · intro hno
      have hn := hno n (Nat.lt_succ_self n)
      rw [hcur] at hn
      have hcs : ¬ (cur = s ∨ cur = l) := by
        rintro (h1 | h1)
        · exact hn.1 (by rw [h1])
        · exact hn.2 (by rw [h1])
      rw [hval, if_neg hcs]
      exact ha (fun i hi => hno i (Nat.lt_succ_of_lt hi))
    · intro i hi hocc hlater
      rcases Nat.lt_succ_iff_lt_or_eq.mp hi with hlt | heq
      · have hn := hlater n hlt (Nat.lt_succ_self n)
        rw [hcur] at hn
        have hcs : ¬ (cur = s ∨ cur = l) := by
          rintro (h1 | h1)
          · exact hn.1 (by rw [h1])
          · exact hn.2 (by rw [h1])
        rw [hval, if_neg hcs]
        exact hb' i hlt hocc (fun j hij hjn => hlater j hij (Nat.lt_succ_of_lt hjn))
      · subst heq
        rw [hcur] at hocc
        have hcs : cur = s ∨ cur = l := by
          rcases hocc with h1 | h1
          · exact Or.inl (Option.some.inj h1)
          · exact Or.inr (Option.some.inj h1)
        rw [hval, if_pos hcs]

/-- The loop returns exactly when no iteration reads `argv[argc]`: every
option that takes a value, among the first `n` arguments, is followed by an
argument. -/
theorem parse_flags.loop_isSome_iff (atoi : String → Int) (argv : List String) :
    ∀ (n : Nat), n ≤ argv.length → ∀ cfg : Config,
      ((∃ cfg', parse_flags.loop atoi argv n cfg = some cfg') ↔
        ∀ i a, i < n → argv[i]? = some a → a ∈ valueOptions → i + 1 < argv.length) := by
  intro n
  induction n with
  | zero =>
    intro _ cfg
    constructor
    · intro _ i a hi
      exact absurd hi (Nat.not_lt_zero i)
    · intro _
      exact ⟨cfg, by simp [parse_flags.loop]⟩
  | succ n ih =>
    intro hn cfg
    have hn1 : n < argv.length := hn
    have hcur : argv[n]? = some argv[n] := List.getElem?_eq_getElem hn1
    constructor
    · rintro ⟨cfg', h⟩ i a hi hia hmem
      obtain ⟨c, cur, hc, hcur', hb⟩ := parse_flags.loop_succ_some atoi argv n cfg cfg' h
      rcases Nat.lt_succ_iff_lt_or_eq.mp hi with hlt | heq
      · exact (ih (Nat.le_of_lt hn1) cfg).mp ⟨c, hc⟩ i a hlt hia hmem
      · subst heq
        rw [hia] at hcur'
        have hac : a = cur := Option.some.inj hcur'
        subst hac
        obtain ⟨v, hv⟩ := (parse_flags.body_eq_some atoi a _ c cfg' hb).2 hmem
        by_contra hlen
        rw [List.getElem?_eq_none (by omega)] at hv
        exact absurd hv (by simp)
    · intro hall
      obtain ⟨c, hc⟩ := (ih (Nat.le_of_lt hn1) cfg).mpr
        (fun i a hi => hall i a (Nat.lt_succ_of_lt hi))
      rw [parse_flags.loop_succ, hc, Option.some_bind, hcur, Option.some_bind]
      by_cases hmem : argv[n] ∈ valueOptions
      · have hlen := hall n argv[n] (Nat.lt_succ_self n) hcur hmem
        rw [List.getElem?_eq_getElem hlen, parse_flags.body_some]
        exact ⟨_, rfl⟩
      · rw [parse_flags.body_of_not_mem atoi _ _ c hmem]
        exact ⟨_, rfl⟩

/-- When the checks let `parse_flags` return, the globals are unchanged and
every checked condition holds. -/
theorem parse_flags.check_returned (cfg cfg' : Config)
    (h : parse_flags.check cfg = .returned cfg') :
    cfg' = cfg ∧
    (0 ≤ cfg.barcode_length ∧ 0 ≤ cfg.minimizer_count ∧ 0 ≤ cfg.error_tolerance ∧
      0 ≤ cfg.minimizer_threshold ∧ 0 ≤ cfg.kmer_size) ∧
    (cfg.input_1 ≠ "" ∧ cfg.input_2 ≠ "" ∧ Config.output_prefix cfg ≠ "") ∧
    (1 ≤ cfg.thread_count ∧ cfg.thread_count ≤ 8) ∧
    (cfg.minimizer_threshold ≤ cfg.minimizer_count ∧ 1 ≤ cfg.minimizer_threshold) := by
  unfold parse_flags.check at h
  split_ifs at h with h1 h2 h3 h4
  simp only [not_or, not_lt] at h1 h2 h3 h4
  refine ⟨(Flags.returned.inj h).symm, ?_, ?_, ?_, ?_⟩
  · exact ⟨h1.1, h1.2.1, h1.2.2.1, h1.2.2.2.1, h1.2.2.2.2⟩
  · exact h2
  · exact ⟨h3.1, by have := h3.2; omega⟩
  · exact ⟨by have := h4.1; omega, h4.2⟩

/-- The checks never end in a read of `argv[argc]`, and every exit they take
is `exit(-1)`. -/
theorem parse_flags.check_exited (cfg : Config) :
    parse_flags.check cfg ≠ .null_read ∧
    ∀ code out, parse_flags.check cfg = .exited code out → code = -1 := by
  unfold parse_flags.check
  split_ifs <;> simp

/-- A negative number or an empty path makes the checks print
"Missing parameters!" and exit. -/
theorem parse_flags.check_missing (cfg : Config)
    (h : cfg.barcode_length < 0 ∨ cfg.minimizer_count < 0 ∨ cfg.error_tolerance < 0 ∨
      cfg.minimizer_threshold < 0 ∨ cfg.kmer_size < 0 ∨ cfg.input_1 = "" ∨ cfg.input_2 = "" ∨
      Config.output_prefix cfg = "") :
    parse_flags.check cfg = .exited (-1) "Missing parameters!\n" := by
  unfold parse_flags.check
  split_ifs with h1 h2
  · rfl
  · rfl
  all_goals
    exfalso
    simp only [not_or] at h1 h2
    rcases h with h | h | h | h | h | h | h | h
    · exact h1.1 h
    · exact h1.2.1 h
    · exact h1.2.2.1 h
    · exact h1.2.2.2.1 h
    · exact h1.2.2.2.2 h
    · exact h2.1 h
    · exact h2.2.1 h
    · exact h2.2.2 h

/-- A thread count outside `[1, 8]` or a threshold outside `[1, minimizer_count]`
makes the checks exit with `exit(-1)`. -/
theorem parse_flags.check_out_of_range (cfg : Config)
    (h : cfg.thread_count < 1 ∨ 8 < cfg.thread_count ∨ cfg.minimizer_threshold < 1 ∨
      cfg.minimizer_count < cfg.minimizer_threshold) :
    ∃ out, parse_flags.check cfg = .exited (-1) out := by
  unfold parse_flags.check
  split_ifs with h1 h2 h3 h4
  · exact ⟨_, rfl⟩
  · exact ⟨_, rfl⟩
  · exact ⟨_, rfl⟩
  · exact ⟨_, rfl⟩
  · exfalso
    simp only [not_or, not_lt] at h3 h4
    rcases h with h | h | h | h
    · omega
    · have := h3.2; omega
    · omega
    · have := h4.1; omega

/-- The result of `parse_flags` once the loop has returned. -/
theorem parse_flags_of_loop (atoi : String → Int) (cfg0 cfg : Config) (argv : List String)
    (h : parse_flags.loop atoi argv argv.length cfg0 = some cfg) :
    parse_flags atoi cfg0 argv = parse_flags.check cfg := by
  unfold parse_flags
  rw [h]

/-- When `parse_flags` returns, the loop has returned and the checks passed. -/
theorem parse_flags_returned (atoi : String → Int) (cfg0 cfg : Config) (argv : List String)
    (h : parse_flags atoi cfg0 argv = .returned cfg) :
    parse_flags.loop atoi argv argv.length cfg0 = some cfg ∧
      parse_flags.check cfg = .returned cfg := by
  unfold parse_flags at h
  cases hl : parse_flags.loop atoi argv argv.length cfg0 with
  | none => rw [hl] at h; exact absurd h (by simp)
  | some c =>
    rw [hl] at h
    have hc := (parse_flags.check_returned c cfg h).1
    subst hc
    exact ⟨rfl, h⟩

/-- The status of `exit(-1)` is not zero. -/
theorem exit_status_neg_one : exit_status (-1) ≠ 0 := by decide

/-- C4. Whenever `parse_flags` returns, `1 ≤ minimizer_threshold ≤ minimizer_count`
and so `minimizer_count ≥ 1`; and whenever the loop leaves a threshold below 1
or above `minimizer_count`, `parse_flags` exits with `exit(-1)`, a non-zero
status. This holds from any initial globals and for any `atoi`. -/
theorem minimizer_threshold_in_range (atoi : String → Int) (cfg0 : Config) (argv : List String) :
    (∀ cfg, parse_flags atoi cfg0 argv = .returned cfg →
      1 ≤ cfg.minimizer_threshold ∧ cfg.minimizer_threshold ≤ cfg.minimizer_count ∧
        1 ≤ cfg.minimizer_count) ∧
    (∀ cfg, parse_flags.loop atoi argv argv.length cfg0 = some cfg →
      (cfg.minimizer_threshold < 1 ∨ cfg.minimizer_count < cfg.minimizer_threshold) →
      ∃ out, parse_flags atoi cfg0 argv = .exited (-1) out ∧ exit_status (-1) ≠ 0) := by
  constructor
  · intro cfg h
    obtain ⟨_, hc⟩ := parse_flags_returned atoi cfg0 cfg argv h
    obtain ⟨_, _, _, _, h4⟩ := parse_flags.check_returned cfg cfg hc
    exact ⟨h4.2, h4.1, by omega⟩
  · intro cfg hl hbad
    rw [parse_flags_of_loop atoi cfg0 cfg argv hl]
    obtain ⟨out, ho⟩ := parse_flags.check_out_of_range cfg (Or.inr (Or.inr hbad))
    exact ⟨out, ho, exit_status_neg_one⟩

/-- C4, at concrete inputs: `sampleArgv` is accepted with `T = 2 = M`, and
`-t 3` with `-m 2` is rejected. -/
theorem minimizer_threshold_in_range_witness :
    (parse_flags c_atoi Config.initial sampleArgv = .returned sampleConfig ∧
      (1 ≤ sampleConfig.minimizer_threshold ∧
        sampleConfig.minimizer_threshold ≤ sampleConfig.minimizer_count ∧
        1 ≤ sampleConfig.minimizer_count)) ∧
    (parse_flags.loop c_atoi (argvWith "4" "1" "3" "1") (argvWith "4" "1" "3" "1").length
        Config.initial = some (configWith 4 1 3 1) ∧
      ((configWith 4 1 3 1).minimizer_threshold < 1 ∨
        (configWith 4 1 3 1).minimizer_count < (configWith 4 1 3 1).minimizer_threshold) ∧
      ∃ out, parse_flags c_atoi Config.initial (argvWith "4" "1" "3" "1") = .exited (-1) out ∧
        exit_status (-1) ≠ 0) :=
  ⟨⟨by decide,
    (minimizer_threshold_in_range c_atoi Config.initial sampleArgv).1 sampleConfig (by decide)⟩,
   ⟨by decide, by decide,
    (minimizer_threshold_in_range c_atoi Config.initial (argvWith "4" "1" "3" "1")).2
      (configWith 4 1 3 1) (by decide) (by decide)⟩⟩

/-- C5, as stated, fails: `-l 4 -e 5` is accepted, with an error tolerance
above the barcode length. -/
theorem error_tolerance_above_barcode_length_accepted :
    parse_flags c_atoi Config.initial (argvWith "4" "5" "2" "1") =
      .returned (configWith 4 5 2 1) ∧
    ¬ (0 ≤ (configWith 4 5 2 1).error_tolerance ∧
        (configWith 4 5 2 1).error_tolerance ≤ (configWith 4 5 2 1).barcode_length) :=
  ⟨by decide, by decide⟩

/-- C5, amended. Whenever `parse_flags` returns, `0 ≤ error_tolerance`; and
whenever the loop leaves a negative error tolerance, `parse_flags` prints
"Missing parameters!" and exits with `exit(-1)`, a non-zero status. -/
theorem error_tolerance_nonneg (atoi : String → Int) (cfg0 : Config) (argv : List String) :
    (∀ cfg, parse_flags atoi cfg0 argv = .returned cfg → 0 ≤ cfg.error_tolerance) ∧
    (∀ cfg, parse_flags.loop atoi argv argv.length cfg0 = some cfg → cfg.error_tolerance < 0 →
      parse_flags atoi cfg0 argv = .exited (-1) "Missing parameters!\n" ∧
        exit_status (-1) ≠ 0) := by
  constructor
  · intro cfg h
    obtain ⟨_, hc⟩ := parse_flags_returned atoi cfg0 cfg argv h
    obtain ⟨_, h1, _⟩ := parse_flags.check_returned cfg cfg hc
    exact h1.2.2.1
  · intro cfg hl hbad
    rw [parse_flags_of_loop atoi cfg0 cfg argv hl]
    exact ⟨parse_flags.check_missing cfg (Or.inr (Or.inr (Or.inl hbad))), exit_status_neg_one⟩

/-- C5 amended, at concrete inputs: `sampleArgv` is accepted with `E = 1`, and
`-e -3` is rejected. -/
theorem error_tolerance_nonneg_witness :
    (parse_flags c_atoi Config.initial sampleArgv = .returned sampleConfig ∧
      0 ≤ sampleConfig.error_tolerance) ∧
    (parse_flags.loop c_atoi (argvWith "4" "-3" "2" "1") (argvWith "4" "-3" "2" "1").length
        Config.initial = some (configWith 4 (-3) 2 1) ∧
      (configWith 4 (-3) 2 1).error_tolerance < 0 ∧
      parse_flags c_atoi Config.initial (argvWith "4" "-3" "2" "1") =
        .exited (-1) "Missing parameters!\n" ∧ exit_status (-1) ≠ 0) :=
  ⟨⟨by decide, (error_tolerance_nonneg c_atoi Config.initial sampleArgv).1 sampleConfig (by decide)⟩,
   ⟨by decide, by decide,
    (error_tolerance_nonneg c_atoi Config.initial (argvWith "4" "-3" "2" "1")).2
      (configWith 4 (-3) 2 1) (by decide) (by decide)⟩⟩

/-- C6, as stated, fails: `-l 0` is accepted, with a barcode length of 0. -/
theorem barcode_length_zero_accepted :
    parse_flags c_atoi Config.initial (argvWith "0" "0" "2" "1") =
      .returned (configWith 0 0 2 1) ∧
    ¬ (1 ≤ (configWith 0 0 2 1).barcode_length) :=
  ⟨by decide, by decide⟩

/-- C6, amended. Whenever `parse_flags` returns, `0 ≤ barcode_length`; and
whenever the loop leaves a negative barcode length, `parse_flags` prints
"Missing parameters!" and exits with `exit(-1)`, a non-zero status. -/
theorem barcode_length_nonneg (atoi : String → Int) (cfg0 : Config) (argv : List String) :
    (∀ cfg, parse_flags atoi cfg0 argv = .returned cfg → 0 ≤ cfg.barcode_length) ∧
    (∀ cfg, parse_flags.loop atoi argv argv.length cfg0 = some cfg → cfg.barcode_length < 0 →
      parse_flags atoi cfg0 argv = .exited (-1) "Missing parameters!\n" ∧
        exit_status (-1) ≠ 0) := by
  constructor
  · intro cfg h
    obtain ⟨_, hc⟩ := parse_flags_returned atoi cfg0 cfg argv h
    obtain ⟨_, h1, _⟩ := parse_flags.check_returned cfg cfg hc
    exact h1.1
  · intro cfg hl hbad
    rw [parse_flags_of_loop atoi cfg0 cfg argv hl]
    exact ⟨parse_flags.check_missing cfg (Or.inl hbad), exit_status_neg_one⟩

/-- C6 amended, at concrete inputs: `sampleArgv` is accepted with `L = 4`, and
`-l -4` is rejected. -/
theorem barcode_length_nonneg_witness :
    (parse_flags c_atoi Config.initial sampleArgv = .returned sampleConfig ∧
      0 ≤ sampleConfig.barcode_length) ∧
    (parse_flags.loop c_atoi (argvWith "-4" "0" "2" "1") (argvWith "-4" "0" "2" "1").length
        Config.initial = some (configWith (-4) 0 2 1) ∧
      (configWith (-4) 0 2 1).barcode_length < 0 ∧
      parse_flags c_atoi Config.initial (argvWith "-4" "0" "2" "1") =
        .exited (-1) "Missing parameters!\n" ∧ exit_status (-1) ≠ 0) :=
  ⟨⟨by decide, (barcode_length_nonneg c_atoi Config.initial sampleArgv).1 sampleConfig (by decide)⟩,
   ⟨by decide, by decide,
    (barcode_length_nonneg c_atoi Config.initial (argvWith "-4" "0" "2" "1")).2
      (configWith (-4) 0 2 1) (by decide) (by decide)⟩⟩

/-- An argument that occurs nowhere in `argv` is at no index of it. -/
theorem getElem?_ne_of_not_mem (argv : List String) (s : String) (h : s ∉ argv) (i : Nat) :
    argv[i]? ≠ some s :=
  fun hi => h (List.getElem?_mem hi)

/-- C7. Whenever `parse_flags`, started from the initial globals, returns,
`1 ≤ thread_count ≤ 8`, where `thread_count` is 1 if neither `-c` nor
`--threads` occurs in `argv`, and otherwise `atoi` of the argument that follows
the (last) occurrence of that option; and whenever the loop leaves any other
value, `parse_flags` exits with `exit(-1)`, a non-zero status. -/
theorem thread_count_in_range (atoi : String → Int) (argv : List String) :
    (∀ cfg, parse_flags atoi Config.initial argv = .returned cfg →
      1 ≤ cfg.thread_count ∧ cfg.thread_count ≤ 8 ∧
      ((∀ a ∈ argv, a ≠ "-c" ∧ a ≠ "--threads") → cfg.thread_count = 1) ∧
      (∀ i, i < argv.length → (argv[i]? = some "-c" ∨ argv[i]? = some "--threads") →
        (∀ j, i < j → argv[j]? ≠ some "-c" ∧ argv[j]? ≠ some "--threads") →
        ∃ v, argv[i + 1]? = some v ∧ cfg.thread_count = atoi v)) ∧
    (∀ cfg, parse_flags.loop atoi argv argv.length Config.initial = some cfg →
      (cfg.thread_count < 1 ∨ 8 < cfg.thread_count) →
      ∃ out, parse_flags atoi Config.initial argv = .exited (-1) out ∧ exit_status (-1) ≠ 0) := by
  constructor
  · intro cfg h
    obtain ⟨hl, hc⟩ := parse_flags_returned atoi Config.initial cfg argv h
    obtain ⟨_, _, _, h3, _⟩ := parse_flags.check_returned cfg cfg hc
    obtain ⟨fa, fb⟩ := parse_flags.loop_field atoi Config.thread_count "-c" "--threads" atoi
      (fun _ _ _ => rfl) argv argv.length Config.initial cfg hl
    refine ⟨h3.1, h3.2, ?_, ?_⟩
    · intro hno
      have := fa (fun i _ => by
        constructor
        · intro hi; exact (hno _ (List.getElem?_mem hi)).1 rfl
        · intro hi; exact (hno _ (List.getElem?_mem hi)).2 rfl)
      rw [this]; rfl
    · intro i hi hocc hlater
      have hval := fb i hi hocc (fun j hij _ => hlater j hij)
      have hdef := (parse_flags.loop_isSome_iff atoi argv argv.length (Nat.le_refl _)
        Config.initial).mp ⟨cfg, hl⟩
      have hnext : i + 1 < argv.length := by
        rcases hocc with ho | ho
        · exact hdef i "-c" hi ho (by decide)
        · exact hdef i "--threads" hi ho (by decide)
      refine ⟨argv[i + 1], List.getElem?_eq_getElem hnext, ?_⟩
      rw [hval, List.getElem?_eq_getElem hnext]
      rfl
  · intro cfg hl hbad
    rw [parse_flags_of_loop atoi Config.initial cfg argv hl]
    have hb : cfg.thread_count < 1 ∨ 8 < cfg.thread_count ∨ cfg.minimizer_threshold < 1 ∨
        cfg.minimizer_count < cfg.minimizer_threshold := by
      rcases hbad with h | h
      · exact Or.inl h
      · exact Or.inr (Or.inl h)
    obtain ⟨out, ho⟩ := parse_flags.check_out_of_range cfg hb
    exact ⟨out, ho, exit_status_neg_one⟩

/-- C7, at concrete inputs: `-c 8` at index 17 is accepted with
`thread_count = atoi "8" = 8`, and `-c 9` is rejected. -/
theorem thread_count_in_range_witness :
    (parse_flags c_atoi Config.initial (argvWith "4" "1" "2" "8") =
        .returned (configWith 4 1 2 8) ∧
      (1 ≤ (configWith 4 1 2 8).thread_count ∧ (configWith 4 1 2 8).thread_count ≤ 8) ∧
      ((argvWith "4" "1" "2" "8")[17]? = some "-c" ∧
        (∀ j, 17 < j → (argvWith "4" "1" "2" "8")[j]? ≠ some "-c" ∧
          (argvWith "4" "1" "2" "8")[j]? ≠ some "--threads") ∧
        ∃ v, (argvWith "4" "1" "2" "8")[17 + 1]? = some v ∧
          (configWith 4 1 2 8).thread_count = c_atoi v)) ∧
    (parse_flags.loop c_atoi (argvWith "4" "1" "2" "9") (argvWith "4" "1" "2" "9").length
        Config.initial = some (configWith 4 1 2 9) ∧
      ((configWith 4 1 2 9).thread_count < 1 ∨ 8 < (configWith 4 1 2 9).thread_count) ∧
      ∃ out, parse_flags c_atoi Config.initial (argvWith "4" "1" "2" "9") = .exited (-1) out ∧
        exit_status (-1) ≠ 0) :=
  have hlater : ∀ j, 17 < j → (argvWith "4" "1" "2" "8")[j]? ≠ some "-c" ∧
      (argvWith "4" "1" "2" "8")[j]? ≠ some "--threads" := by
    intro j hj
    obtain ⟨k, rfl⟩ : ∃ k, j = 18 + k := ⟨j - 18, by omega⟩
    cases k with
    | zero => decide
    | succ k =>
      have : (argvWith "4" "1" "2" "8")[18 + (k + 1)]? = none :=
        List.getElem?_eq_none (by simp only [argvWith, List.length_cons, List.length_nil]; omega)
      rw [this]
      simp
  have hacc := (thread_count_in_range c_atoi (argvWith "4" "1" "2" "8")).1 (configWith 4 1 2 8)
    (by decide)
  ⟨⟨by decide, ⟨hacc.1, hacc.2.1⟩, by decide, hlater,
    hacc.2.2.2 17 (by decide) (Or.inl (by decide)) hlater⟩,
   ⟨by decide, by decide,
    (thread_count_in_range c_atoi (argvWith "4" "1" "2" "9")).2 (configWith 4 1 2 9)
      (by decide) (by decide)⟩⟩

/-- A boolean global `g` set by the switch spelled `s` or `l` is true after
`n` iterations exactly when it was true before or the switch occurs among the
first `n` arguments. -/
theorem parse_flags.loop_switch (atoi : String → Int) (g : Config → Bool) (s l : String)
    (hg : ∀ cur v c, g (parse_flags.effect atoi cur v c) = if cur = s ∨ cur = l then true else g c)
    (argv : List String) :
    ∀ (n : Nat) (cfg cfg' : Config), parse_flags.loop atoi argv n cfg = some cfg' →
      (g cfg' = true ↔
        g cfg = true ∨ ∃ i, i < n ∧ (argv[i]? = some s ∨ argv[i]? = some l)) := by
  intro n
  induction n with
  | zero =>
    intro cfg cfg' h
    have : cfg' = cfg := by
      simpa [parse_flags.loop] using h.symm
    subst this
    simp
  | succ n ih =>
    intro cfg cfg' h
    obtain ⟨c, cur, hc, hcur, hb⟩ := parse_flags.loop_succ_some atoi argv n cfg cfg' h
    have he := (parse_flags.body_eq_some atoi cur _ c cfg' hb).1
    have hval : g cfg' = if cur = s ∨ cur = l then true else g c := by
      rw [he, hg]
    have hprev := ih cfg c hc
    by_cases hcs : cur = s ∨ cur = l
    · rw [hval, if_pos hcs]
      refine ⟨fun _ => Or.inr ⟨n, Nat.lt_succ_self n, ?_⟩, fun _ => rfl⟩
      rw [hcur]
      rcases hcs with h1 | h1
      · exact Or.inl (by rw [h1])
      · exact Or.inr (by rw [h1])
    · rw [hval, if_neg hcs, hprev]
      constructor
      · rintro (h1 | ⟨i, hi, h1⟩)
        · exact Or.inl h1
        · exact Or.inr ⟨i, Nat.lt_succ_of_lt hi, h1⟩
      · rintro (h1 | ⟨i, hi, h1⟩)
        · exact Or.inl h1
        · rcases Nat.lt_succ_iff_lt_or_eq.mp hi with hlt | heq
          · exact Or.inr ⟨i, hlt, h1⟩
          · subst heq
            rw [hcur] at h1
            exfalso
            rcases h1 with h2 | h2
            · exact hcs (Or.inl (Option.some.inj h2))
            · exact hcs (Or.inr (Option.some.inj h2))

/-- After the whole loop, started from the initial globals, `silent` is set
exactly when `-s` or `--silent` is an element of `argv`. -/
theorem parse_flags.loop_silent (atoi : String → Int) (argv : List String) (cfg : Config)
    (h : parse_flags.loop atoi argv argv.length Config.initial = some cfg) :
    cfg.silent = true ↔ ("-s" ∈ argv ∨ "--silent" ∈ argv) := by
  rw [parse_flags.loop_switch atoi Config.silent "-s" "--silent" (fun _ _ _ => rfl) argv
    argv.length Config.initial cfg h]
  constructor
  · rintro (h1 | ⟨i, _, h1 | h1⟩)
    · exact absurd h1 (by decide)
    · exact Or.inl (List.getElem?_mem h1)
    · exact Or.inr (List.getElem?_mem h1)
  · rintro (h1 | h1)
    · obtain ⟨i, hi⟩ := List.getElem?_of_mem h1
      have hlt : i < argv.length := by
        by_contra hge
        rw [List.getElem?_eq_none (by omega)] at hi
        exact absurd hi (by simp)
      exact Or.inr ⟨i, hlt, Or.inl hi⟩
    · obtain ⟨i, hi⟩ := List.getElem?_of_mem h1
      have hlt : i < argv.length := by
        by_contra hge
        rw [List.getElem?_eq_none (by omega)] at hi
        exact absurd hi (by simp)
      exact Or.inr ⟨i, hlt, Or.inr hi⟩

/-- A global assigned by an option that occurs nowhere in `argv` still has
its initial value after the loop. -/
theorem parse_flags.loop_absent {α : Type} (atoi : String → Int) (g : Config → α)
    (s l : String) (rd : String → α)
    (hg : ∀ cur v c, g (parse_flags.effect atoi cur v c) = if cur = s ∨ cur = l then rd v else g c)
    (argv : List String) (cfg : Config)
    (h : parse_flags.loop atoi argv argv.length Config.initial = some cfg)
    (hs : s ∉ argv) (hl : l ∉ argv) : g cfg = g Config.initial :=
  (parse_flags.loop_field atoi g s l rd hg argv argv.length Config.initial cfg h).1
    (fun i _ => ⟨getElem?_ne_of_not_mem argv s hs i, getElem?_ne_of_not_mem argv l hl i⟩)

/-- Missing required option, away from the read of `argv[argc]`: when every
option that takes a value is followed by an argument and one of the eight
required options occurs nowhere in `argv`, `parse_flags`, started from the
initial globals, writes the one line "Missing parameters!" and exits with
`exit(-1)`, a non-zero status. -/
theorem missing_required_option_rejected (atoi : String → Int) (argv : List String)
    (hfollow : ∀ i a, argv[i]? = some a → a ∈ valueOptions → i + 1 < argv.length)
    (hmiss : ∃ o ∈ requiredOptions, o.1 ∉ argv ∧ o.2 ∉ argv) :
    parse_flags atoi Config.initial argv = .exited (-1) "Missing parameters!\n" ∧
      exit_status (-1) ≠ 0 := by
  obtain ⟨cfg, hl⟩ := (parse_flags.loop_isSome_iff atoi argv argv.length (Nat.le_refl _)
    Config.initial).mpr (fun i a _ hia hmem => hfollow i a hia hmem)
  rw [parse_flags_of_loop atoi Config.initial cfg argv hl]
  refine ⟨?_, exit_status_neg_one⟩
  apply parse_flags.check_missing
  obtain ⟨o, ho, h1, h2⟩ := hmiss
  simp only [requiredOptions, List.mem_cons, List.mem_singleton, List.not_mem_nil,
    or_false] at ho
  rcases ho with rfl | rfl | rfl | rfl | rfl | rfl | rfl | rfl
  · have := parse_flags.loop_absent atoi Config.input_1 _ _ (fun v => v) (fun _ _ _ => rfl)
      argv cfg hl h1 h2
    exact Or.inr (Or.inr (Or.inr (Or.inr (Or.inr (Or.inl this)))))
  · have := parse_flags.loop_absent atoi Config.input_2 _ _ (fun v => v) (fun _ _ _ => rfl)
      argv cfg hl h1 h2
    exact Or.inr (Or.inr (Or.inr (Or.inr (Or.inr (Or.inr (Or.inl this))))))
  · have := parse_flags.loop_absent atoi Config.output_prefix _ _ (fun v => v)
      (fun _ _ _ => rfl) argv cfg hl h1 h2
    exact Or.inr (Or.inr (Or.inr (Or.inr (Or.inr (Or.inr (Or.inr this))))))
  · have := parse_flags.loop_absent atoi Config.barcode_length _ _ atoi (fun _ _ _ => rfl)
      argv cfg hl h1 h2
    exact Or.inl (by rw [this]; decide)
  · have := parse_flags.loop_absent atoi Config.minimizer_count _ _ atoi (fun _ _ _ => rfl)
      argv cfg hl h1 h2
    exact Or.inr (Or.inl (by rw [this]; decide))
  · have := parse_flags.loop_absent atoi Config.kmer_size _ _ atoi (fun _ _ _ => rfl)
      argv cfg hl h1 h2
    exact Or.inr (Or.inr (Or.inr (Or.inr (Or.inl (by rw [this]; decide)))))
  · have := parse_flags.loop_absent atoi Config.error_tolerance _ _ atoi (fun _ _ _ => rfl)
      argv cfg hl h1 h2
    exact Or.inr (Or.inr (Or.inl (by rw [this]; decide)))
  · have := parse_flags.loop_absent atoi Config.minimizer_threshold _ _ atoi (fun _ _ _ => rfl)
      argv cfg hl h1 h2
    exact Or.inr (Or.inr (Or.inr (Or.inl (by rw [this]; decide))))

/-- The rejection of a missing required option, at a concrete input: the
command line `calib -f r1.fq` lacks seven required options. -/
theorem missing_required_option_rejected_witness :
    ((∀ i a, ["calib", "-f", "r1.fq"][i]? = some a → a ∈ valueOptions →
        i + 1 < ["calib", "-f", "r1.fq"].length) ∧
      (∃ o ∈ requiredOptions, o.1 ∉ ["calib", "-f", "r1.fq"] ∧
        o.2 ∉ ["calib", "-f", "r1.fq"])) ∧
    (parse_flags c_atoi Config.initial ["calib", "-f", "r1.fq"] =
        .exited (-1) "Missing parameters!\n" ∧ exit_status (-1) ≠ 0) :=
  have hfollow : ∀ i a, ["calib", "-f", "r1.fq"][i]? = some a → a ∈ valueOptions →
      i + 1 < ["calib", "-f", "r1.fq"].length := by
    intro i a hia hmem
    match i, hia with
    | 0, hia => exact absurd (Option.some.inj hia ▸ hmem) (by decide)
    | 1, _ => decide
    | 2, hia => exact absurd (Option.some.inj hia ▸ hmem) (by decide)
    | (k + 3), hia => simp at hia
  have hmiss : ∃ o ∈ requiredOptions, o.1 ∉ ["calib", "-f", "r1.fq"] ∧
      o.2 ∉ ["calib", "-f", "r1.fq"] :=
    ⟨("-r", "--input-reverse"), by decide, by decide, by decide⟩
  ⟨⟨hfollow, hmiss⟩, missing_required_option_rejected c_atoi _ hfollow hmiss⟩

/-- C8, at the failing input `calib -f`: seven required options occur nowhere,
yet `parse_flags` writes no line and takes no `exit`; its loop reads
`argv[argc]` as the value of `-f`. -/
theorem missing_value_reads_argv_argc :
    (∃ o ∈ requiredOptions, o.1 ∉ ["calib", "-f"] ∧ o.2 ∉ ["calib", "-f"]) ∧
    parse_flags c_atoi Config.initial ["calib", "-f"] = .null_read ∧
    parse_flags c_atoi Config.initial ["calib", "-f"] ≠ .exited (-1) "Missing parameters!\n" :=
  ⟨⟨("-r", "--input-reverse"), by decide, by decide, by decide⟩, by decide, by decide⟩

/-- C9. When `parse_flags` rejects `argv` (it exits), `main` ends there with
that exit code: the only event of the run is the diagnostic on stdout, so no
log stream is opened, `print_flags` is not called, and neither
`extract_barcodes_and_minimizers` nor `cluster` is invoked. -/
theorem rejected_run_does_no_work (atoi : String → Int) (argv : List String) (code : Int)
    (out : String) (h : parse_flags atoi Config.initial argv = .exited code out) :
    ∃ run, main atoi argv = some run ∧ run.code = code ∧ run.events = [.cout out] ∧
      ∀ e ∈ run.events, (∀ path, e ≠ .open_dog path) ∧ (∀ path, e ≠ .open_node_dog path) ∧
        (∀ cfg, e ≠ .print_flags cfg) ∧ e ≠ .extract_barcodes_and_minimizers ∧ e ≠ .cluster := by
  refine ⟨{ events := [.cout out], code := code }, ?_, rfl, rfl, ?_⟩
  · unfold main
    rw [h]
  · intro e he
    have : e = .cout out := by simpa using he
    subst this
    simp

/-- C9, at a concrete input: `calib -f r1.fq` is rejected. -/
theorem rejected_run_does_no_work_witness :
    parse_flags c_atoi Config.initial ["calib", "-f", "r1.fq"] =
      .exited (-1) "Missing parameters!\n" ∧
    ∃ run, main c_atoi ["calib", "-f", "r1.fq"] = some run ∧ run.code = -1 ∧
      run.events = [.cout "Missing parameters!\n"] ∧
      ∀ e ∈ run.events, (∀ path, e ≠ .open_dog path) ∧ (∀ path, e ≠ .open_node_dog path) ∧
        (∀ cfg, e ≠ .print_flags cfg) ∧ e ≠ .extract_barcodes_and_minimizers ∧ e ≠ .cluster :=
  ⟨by decide,
   rejected_run_does_no_work c_atoi ["calib", "-f", "r1.fq"] (-1) "Missing parameters!\n"
     (by decide)⟩

/-- C10. For every accepted `argv`, the text `main` itself writes to stdout is
empty if `-s` or `--silent` is an element of `argv`, and otherwise is the
three progress lines in order. -/
theorem silent_suppresses_progress (atoi : String → Int) (argv : List String) (cfg : Config)
    (h : parse_flags atoi Config.initial argv = .returned cfg) :
    ∃ run, main atoi argv = some run ∧
      run.stdout =
        if "-s" ∈ argv ∨ "--silent" ∈ argv then []
        else ["Extracting minimizers and barcodes...\n", "Clustering...\n",
              "All done! Have a good day!\n"] := by
  obtain ⟨hl, _⟩ := parse_flags_returned atoi Config.initial cfg argv h
  have hs := parse_flags.loop_silent atoi argv cfg hl
  refine ⟨{ events := main.work cfg, code := 0 }, ?_, ?_⟩
  · unfold main
    rw [h]
  · by_cases hmem : "-s" ∈ argv ∨ "--silent" ∈ argv
    · have hsil : cfg.silent = true := hs.mpr hmem
      rw [if_pos hmem]
      simp [Run.stdout, main.work, hsil]
    · have hsil : cfg.silent = false := by
        cases hc : cfg.silent with
        | false => rfl
        | true => exact absurd (hs.mp hc) hmem
      rw [if_neg hmem]
      simp [Run.stdout, main.work, hsil]

/-- C10, at concrete inputs: `sampleArgv` prints the three progress lines,
and `sampleArgv` followed by `-s` prints nothing. -/
theorem silent_suppresses_progress_witness :
    (parse_flags c_atoi Config.initial sampleArgv = .returned sampleConfig ∧
      ∃ run, main c_atoi sampleArgv = some run ∧
        run.stdout =
          if "-s" ∈ sampleArgv ∨ "--silent" ∈ sampleArgv then []
          else ["Extracting minimizers and barcodes...\n", "Clustering...\n",
                "All done! Have a good day!\n"]) ∧
    (parse_flags c_atoi Config.initial (sampleArgv ++ ["-s"]) =
        .returned { sampleConfig with silent := true } ∧
      ∃ run, main c_atoi (sampleArgv ++ ["-s"]) = some run ∧
        run.stdout =
          if "-s" ∈ sampleArgv ++ ["-s"] ∨ "--silent" ∈ sampleArgv ++ ["-s"] then []
          else ["Extracting minimizers and barcodes...\n", "Clustering...\n",
                "All done! Have a good day!\n"]) :=
  ⟨⟨by decide, silent_suppresses_progress c_atoi sampleArgv sampleConfig (by decide)⟩,
   ⟨by decide,
    silent_suppresses_progress c_atoi (sampleArgv ++ ["-s"]) { sampleConfig with silent := true }
      (by decide)⟩⟩

/-! ## Theorems: the structure of NodeHash -/

/-- One loop of `NodeHash` over the first `n` positions in closed form: it
returns exactly when the vector has at least `n` entries, and then XORs the
contribution of these positions into `result`. -/
theorem NodeHash.fold_closed (H : StdHash) (v : List Nat) :
    ∀ (n : Nat) (result : Nat),
      (List.range n).foldlM
        (fun result i => do
          let x ← v[i]?
          pure (result ^^^ shl H (H.int (to_int x)) i))
        result =
      if n ≤ v.length then some (result ^^^ NodeHash.contribution H v n) else none := by
  intro n
  induction n with
  | zero => intro result; simp [NodeHash.contribution]
  | succ n ih =>
    intro result
    rw [List.range_succ, List.foldlM_append, ih]
    by_cases hn : n + 1 ≤ v.length
    · have hn1 : n < v.length := hn
      rw [if_pos (Nat.le_of_lt hn1), if_pos hn]
      have hd : v.getD n 0 = v[n] := by
        rw [List.getD_eq_getElem?_getD, List.getElem?_eq_getElem hn1]; rfl
      simp [List.getElem?_eq_getElem hn1, NodeHash.contribution, hd, Nat.xor_assoc]
    · rw [if_neg hn]
      by_cases hn0 : n ≤ v.length
      · rw [if_pos hn0]
        have : v[n]? = none := List.getElem?_eq_none (by omega)
        simp [this]
      · rw [if_neg hn0]
        rfl

/-- The closed form of `NodeHash.pass`. -/
theorem NodeHash.pass_closed (H : StdHash) (M : Int) (v : List Nat) (result : Nat) :
    NodeHash.pass H M v result =
      if M.toNat ≤ v.length then some (result ^^^ NodeHash.contribution H v M.toNat)
      else none :=
  NodeHash.fold_closed H v M.toNat result

/-- The closed form of `NodeHash` on vectors with at least `M` entries. -/
theorem NodeHash_closed (H : StdHash) (M : Int) (node : Node)
    (h1 : M.toNat ≤ node.minimizers_1.length) (h2 : M.toNat ≤ node.minimizers_2.length) :
    NodeHash H M node =
      some ((size_t (H.str node.barcode) ^^^
        NodeHash.contribution H node.minimizers_1 M.toNat) ^^^
        NodeHash.contribution H node.minimizers_2 M.toNat) := by
  show (NodeHash.pass H M node.minimizers_1 (size_t (H.str node.barcode))).bind
      (fun r => (NodeHash.pass H M node.minimizers_2 r).bind (fun r => some r)) = _
  rw [NodeHash.pass_closed, if_pos h1, Option.some_bind, NodeHash.pass_closed, if_pos h2,
    Option.some_bind]

/-- The contribution of the first `n` positions reads only these positions. -/
theorem NodeHash.contribution_congr (H : StdHash) (v w : List Nat) :
    ∀ n : Nat, (∀ i, i < n → v[i]? = w[i]?) →
      NodeHash.contribution H v n = NodeHash.contribution H w n := by
  intro n
  induction n with
  | zero => intro _; rfl
  | succ n ih =>
    intro h
    have hn : v.getD n 0 = w.getD n 0 := by
      rw [List.getD_eq_getElem?_getD, List.getD_eq_getElem?_getD, h n (Nat.lt_succ_self n)]
    show NodeHash.contribution H v n ^^^ _ = NodeHash.contribution H w n ^^^ _
    rw [ih (fun i hi => h i (Nat.lt_succ_of_lt hi)), hn]

/-- C15. The two mates cancel in `NodeHash`: on a node with at least `M`
minimizers per mate whose mates agree at every position below `M`, the hash is
the hash of the barcode alone; and exchanging `minimizers_1` with
`minimizers_2` never changes the result of `NodeHash`. -/
theorem NodeHash_mates_cancel (H : StdHash) (M : Int) :
    (∀ node : Node, M ≤ (node.minimizers_1.length : Int) →
      M ≤ (node.minimizers_2.length : Int) →
      (∀ i : Nat, (i : Int) < M → node.minimizers_1[i]? = node.minimizers_2[i]?) →
      NodeHash H M node = some (size_t (H.str node.barcode))) ∧
    (∀ node : Node,
      NodeHash H M { barcode := node.barcode, minimizers_1 := node.minimizers_2,
                     minimizers_2 := node.minimizers_1 } = NodeHash H M node) := by
  constructor
  · intro node h1 h2 heq
    rw [NodeHash_closed H M node (by omega) (by omega)]
    rw [NodeHash.contribution_congr H node.minimizers_1 node.minimizers_2 M.toNat
      (fun i hi => heq i (by omega))]
    rw [Nat.xor_cancel_right]
  · intro node
    show (NodeHash.pass H M node.minimizers_2 (size_t (H.str node.barcode))).bind
        (fun r => (NodeHash.pass H M node.minimizers_1 r).bind (fun r => some r)) =
      (NodeHash.pass H M node.minimizers_1 (size_t (H.str node.barcode))).bind
        (fun r => (NodeHash.pass H M node.minimizers_2 r).bind (fun r => some r))
    simp only [NodeHash.pass_closed]
    by_cases h1 : M.toNat ≤ node.minimizers_1.length <;>
      by_cases h2 : M.toNat ≤ node.minimizers_2.length <;>
      simp [h1, h2, Nat.xor_assoc,
        Nat.xor_comm (NodeHash.contribution H node.minimizers_1 M.toNat)]

/-- C15, at concrete inputs: `twinNode` hashes to the hash of `AAAA` alone,
with `M = 2`. -/
theorem NodeHash_mates_cancel_witness :
    ((twinNode.minimizers_1.length : Int) = 2 ∧ (twinNode.minimizers_2.length : Int) = 2 ∧
      twinNode.minimizers_1 = twinNode.minimizers_2) ∧
    NodeHash sampleHash 2 twinNode = some (size_t (sampleHash.str twinNode.barcode)) :=
  ⟨⟨by decide, by decide, by decide⟩,
   (NodeHash_mates_cancel sampleHash 2).1 twinNode (by decide) (by decide)
     (fun _ _ => rfl)⟩

/-! ## Theorems: the default node -/

/-- C13. For `minimizer_count = M ≥ 0` the constructor `Node()` yields a node
with an empty barcode and two minimizer vectors of exactly `M` zero entries, so
every index below `M` is in bounds: `NodeHash` returns on it, and `NodeEqual`
returns on it against any node with `M` minimizers per mate. -/
theorem Node_default_length (H : StdHash) (M : Int) (hM : 0 ≤ M) :
    ∃ node, Node.default M = some node ∧ node.barcode = "" ∧
      (node.minimizers_1.length : Int) = M ∧ (node.minimizers_2.length : Int) = M ∧
      (∀ i : Nat, (i : Int) < M →
        node.minimizers_1[i]? = some 0 ∧ node.minimizers_2[i]? = some 0) ∧
      (∃ h, NodeHash H M node = some h) ∧
      (∀ other : Node, (other.minimizers_1.length : Int) = M →
        (other.minimizers_2.length : Int) = M →
        ∃ r, NodeEqual M node other = some r ∧ NodeEqual M other node = some r) := by
  have hlen : ((List.replicate M.toNat (0 : Nat)).length : Int) = M := by
    rw [List.length_replicate]; omega
  refine ⟨{ barcode := "", minimizers_1 := List.replicate M.toNat 0,
            minimizers_2 := List.replicate M.toNat 0 }, ?_, rfl, hlen, hlen, ?_, ?_, ?_⟩
  · unfold Node.default
    rw [if_pos hM]
  · intro i hi
    have : i < M.toNat := by omega
    exact ⟨List.getElem?_replicate_of_lt this, List.getElem?_replicate_of_lt this⟩
  · exact ⟨_, NodeHash_closed H M _ (by simp) (by simp)⟩
  · intro other h1 h2
    refine ⟨(decide ("" = other.barcode) &&
        decide (List.replicate M.toNat 0 = other.minimizers_1)) &&
        decide (List.replicate M.toNat 0 = other.minimizers_2), ?_, ?_⟩
    · unfold NodeEqual
      simp only [NodeEqual.pass_exact M _ _ hlen h1, NodeEqual.pass_exact M _ _ hlen h2]
      rfl
    · unfold NodeEqual
      simp only [NodeEqual.pass_exact M _ _ h1 hlen, NodeEqual.pass_exact M _ _ h2 hlen]
      simp [eq_comm]

/-- C13, at a concrete input: `Node()` with `minimizer_count = 2`. -/
theorem Node_default_length_witness :
    (0 : Int) ≤ 2 ∧
    Node.default 2 = some { barcode := "", minimizers_1 := [0, 0], minimizers_2 := [0, 0] } ∧
    ∃ node, Node.default 2 = some node ∧ node.barcode = "" ∧
      (node.minimizers_1.length : Int) = 2 ∧ (node.minimizers_2.length : Int) = 2 ∧
      (∀ i : Nat, (i : Int) < 2 →
        node.minimizers_1[i]? = some 0 ∧ node.minimizers_2[i]? = some 0) ∧
      (∃ h, NodeHash sampleHash 2 node = some h) ∧
      (∀ other : Node, (other.minimizers_1.length : Int) = 2 →
        (other.minimizers_2.length : Int) = 2 →
        ∃ r, NodeEqual 2 node other = some r ∧ NodeEqual 2 other node = some r) :=
  ⟨by decide, by decide, Node_default_length sampleHash 2 (by decide)⟩

/-! ## Theorems: the read of argv[argc] and repeated options -/

/-- The call of `parse_flags` reads `argv[argc]` exactly when the last element
of `argv` is an option that takes a value. -/
theorem parse_flags_null_read_iff (atoi : String → Int) (cfg0 : Config) (argv : List String) :
    parse_flags atoi cfg0 argv = .null_read ↔
      ∃ a, argv.getLast? = some a ∧ a ∈ valueOptions := by
  have hiff := parse_flags.loop_isSome_iff atoi argv argv.length (Nat.le_refl _) cfg0
  constructor
  · intro h
    have hnone : ¬ ∃ cfg', parse_flags.loop atoi argv argv.length cfg0 = some cfg' := by
      rintro ⟨cfg', hc⟩
      rw [parse_flags_of_loop atoi cfg0 cfg' argv hc] at h
      exact (parse_flags.check_exited cfg').1 h
    rw [hiff] at hnone
    push_neg at hnone
    obtain ⟨i, a, hi, hia, hmem, hlen⟩ := hnone
    refine ⟨a, ?_, hmem⟩
    rw [List.getLast?_eq_getElem?, ← hia]
    congr 1
    omega
  · rintro ⟨a, hlast, hmem⟩
    rw [List.getLast?_eq_getElem?] at hlast
    have hpos : 0 < argv.length := by
      by_contra h0
      rw [List.getElem?_eq_none (by omega)] at hlast
      exact absurd hlast (by simp)
    cases hl : parse_flags.loop atoi argv argv.length cfg0 with
    | none => unfold parse_flags; rw [hl]
    | some cfg =>
      have := hiff.mp ⟨cfg, hl⟩ (argv.length - 1) a (by omega) hlast hmem
      omega

/-- C12, at the failing input `sampleArgv` followed by `-c`: the last element
is an option that takes a value, and `parse_flags` takes no exit and writes no
line; its loop reads `argv[argc]` as the value of `-c`. -/
theorem trailing_option_reads_argv_argc :
    (sampleArgv ++ ["-c"]).getLast? = some "-c" ∧ "-c" ∈ valueOptions ∧
    parse_flags c_atoi Config.initial (sampleArgv ++ ["-c"]) = .null_read ∧
    ∀ code out, parse_flags c_atoi Config.initial (sampleArgv ++ ["-c"]) ≠ .exited code out :=
  have hnull : parse_flags c_atoi Config.initial (sampleArgv ++ ["-c"]) = .null_read :=
    (parse_flags_null_read_iff c_atoi Config.initial (sampleArgv ++ ["-c"])).mpr
      ⟨"-c", by decide, by decide⟩
  ⟨by decide, by decide, hnull, fun code out h => by rw [hnull] at h; exact Flags.noConfusion h⟩

/-- Last occurrence wins for one global `g` assigned by an option that takes a
value, after the whole loop from the initial globals. -/
theorem parse_flags.loop_lastWins {α : Type} (atoi : String → Int) (g : Config → α)
    (s l : String) (rd : String → α)
    (hg : ∀ cur v c, g (parse_flags.effect atoi cur v c) = if cur = s ∨ cur = l then rd v else g c)
    (hs : s ∈ valueOptions) (hl : l ∈ valueOptions) (argv : List String) (cfg : Config)
    (h : parse_flags.loop atoi argv argv.length Config.initial = some cfg) :
    LastWins argv s l rd (g Config.initial) (g cfg) := by
  constructor
  · rintro ⟨h1, h2⟩
    exact parse_flags.loop_absent atoi g s l rd hg argv cfg h h1 h2
  · intro i hi hocc hlater
    have hval := (parse_flags.loop_field atoi g s l rd hg argv argv.length Config.initial cfg
      h).2 i hi hocc (fun j hij _ => hlater j hij)
    have hdef := (parse_flags.loop_isSome_iff atoi argv argv.length (Nat.le_refl _)
      Config.initial).mp ⟨cfg, h⟩
    have hnext : i + 1 < argv.length := by
      rcases hocc with ho | ho
      · exact hdef i s hi ho hs
      · exact hdef i l hi ho hl
    refine ⟨argv[i + 1], List.getElem?_eq_getElem hnext, ?_⟩
    rw [hval, List.getElem?_eq_getElem hnext]
    rfl

/-- C14. Last occurrence wins: when every option of `argv` that takes a value
is followed by another argument, the loop of `parse_flags`, started from the
initial globals, returns, and each of the nine configuration values it leaves
(the ones `parse_flags` returns with, if it returns) is the default when its
option occurs nowhere in `argv`, and otherwise is taken from the argument after
the last element of `argv` equal to the option's short or long spelling. -/
theorem last_occurrence_wins (atoi : String → Int) (argv : List String)
    (hfollow : ∀ i a, argv[i]? = some a → a ∈ valueOptions → i + 1 < argv.length) :
    ∃ cfg, parse_flags.loop atoi argv argv.length Config.initial = some cfg ∧
      parse_flags atoi Config.initial argv = parse_flags.check cfg ∧
      (∀ cfg', parse_flags atoi Config.initial argv = .returned cfg' → cfg' = cfg) ∧
      LastWins argv "-f" "--input-forward" (fun v => v) "" cfg.input_1 ∧
      LastWins argv "-r" "--input-reverse" (fun v => v) "" cfg.input_2 ∧
      LastWins argv "-o" "--output-prefix" (fun v => v) "" (Config.output_prefix cfg) ∧
      LastWins argv "-l" "--barcode-length" atoi (-1) cfg.barcode_length ∧
      LastWins argv "-m" "--minimizer-count" atoi (-1) cfg.minimizer_count ∧
      LastWins argv "-k" "--kmer-size" atoi (-1) cfg.kmer_size ∧
      LastWins argv "-e" "--error-tolerance" atoi (-1) cfg.error_tolerance ∧
      LastWins argv "-t" "--minimizer-threshold" atoi (-1) cfg.minimizer_threshold ∧
      LastWins argv "-c" "--threads" atoi 1 cfg.thread_count := by
  obtain ⟨cfg, hl⟩ := (parse_flags.loop_isSome_iff atoi argv argv.length (Nat.le_refl _)
    Config.initial).mpr (fun i a _ hia hmem => hfollow i a hia hmem)
  have hpf := parse_flags_of_loop atoi Config.initial cfg argv hl
  refine ⟨cfg, hl, hpf, ?_, ?_, ?_, ?_, ?_, ?_, ?_, ?_, ?_, ?_⟩
  · intro cfg' h
    rw [hpf] at h
    exact (parse_flags.check_returned cfg cfg' h).1
  · exact parse_flags.loop_lastWins atoi Config.input_1 _ _ _ (fun _ _ _ => rfl)
      (by decide) (by decide) argv cfg hl
  · exact parse_flags.loop_lastWins atoi Config.input_2 _ _ _ (fun _ _ _ => rfl)
      (by decide) (by decide) argv cfg hl
  · exact parse_flags.loop_lastWins atoi Config.output_prefix _ _ _ (fun _ _ _ => rfl)
      (by decide) (by decide) argv cfg hl
  · exact parse_flags.loop_lastWins atoi Config.barcode_length _ _ _ (fun _ _ _ => rfl)
      (by decide) (by decide) argv cfg hl
  · exact parse_flags.loop_lastWins atoi Config.minimizer_count _ _ _ (fun _ _ _ => rfl)
      (by decide) (by decide) argv cfg hl
  · exact parse_flags.loop_lastWins atoi Config.kmer_size _ _ _ (fun _ _ _ => rfl)
      (by decide) (by decide) argv cfg hl
  · exact parse_flags.loop_lastWins atoi Config.error_tolerance _ _ _ (fun _ _ _ => rfl)
      (by decide) (by decide) argv cfg hl
  · exact parse_flags.loop_lastWins atoi Config.minimizer_threshold _ _ _ (fun _ _ _ => rfl)
      (by decide) (by decide) argv cfg hl
  · exact parse_flags.loop_lastWins atoi Config.thread_count _ _ _ (fun _ _ _ => rfl)
      (by decide) (by decide) argv cfg hl

/-- C14, at a concrete input: in `calib -l 4 -l 6` the loop leaves
`barcode_length = 6`, from the argument after the second `-l`, and every other
value at its default. -/
theorem last_occurrence_wins_witness :
    (∀ i a, argvRepeat[i]? = some a → a ∈ valueOptions → i + 1 < argvRepeat.length) ∧
    parse_flags.loop c_atoi argvRepeat argvRepeat.length Config.initial =
      some { Config.initial with barcode_length := 6 } ∧
    (∃ cfg, parse_flags.loop c_atoi argvRepeat argvRepeat.length Config.initial = some cfg ∧
      parse_flags c_atoi Config.initial argvRepeat = parse_flags.check cfg ∧
      (∀ cfg', parse_flags c_atoi Config.initial argvRepeat = .returned cfg' → cfg' = cfg) ∧
      LastWins argvRepeat "-f" "--input-forward" (fun v => v) "" cfg.input_1 ∧
      LastWins argvRepeat "-r" "--input-reverse" (fun v => v) "" cfg.input_2 ∧
      LastWins argvRepeat "-o" "--output-prefix" (fun v => v) "" (Config.output_prefix cfg) ∧
      LastWins argvRepeat "-l" "--barcode-length" c_atoi (-1) cfg.barcode_length ∧
      LastWins argvRepeat "-m" "--minimizer-count" c_atoi (-1) cfg.minimizer_count ∧
      LastWins argvRepeat "-k" "--kmer-size" c_atoi (-1) cfg.kmer_size ∧
      LastWins argvRepeat "-e" "--error-tolerance" c_atoi (-1) cfg.error_tolerance ∧
      LastWins argvRepeat "-t" "--minimizer-threshold" c_atoi (-1) cfg.minimizer_threshold ∧
      LastWins argvRepeat "-c" "--threads" c_atoi 1 cfg.thread_count) :=
  have hfollow : ∀ i a, argvRepeat[i]? = some a → a ∈ valueOptions →
      i + 1 < argvRepeat.length := by
    intro i a hia hmem
    match i, hia with
    | 0, hia => exact absurd (Option.some.inj hia ▸ hmem) (by decide)
    | 1, _ => decide
    | 2, hia => exact absurd (Option.some.inj hia ▸ hmem) (by decide)
    | 3, _ => decide
    | 4, hia => exact absurd (Option.some.inj hia ▸ hmem) (by decide)
    | (k + 5), hia => simp [argvRepeat] at hia
  ⟨hfollow, by decide, last_occurrence_wins c_atoi argvRepeat hfollow⟩

end Calib
